import Mathlib

/-!
# Verification of the ats-dev recruitment pipeline engine

A shallow embedding of the stage-pipeline code of the `recruitment` Django app:
the `Recruitment`, `Stage` and `CandidateApplication` models (src/recruitment/models.py),
the drag-and-drop stage-update view and conversion view
(src/recruitment/views/candidate_application_views.py), and the reorder / bulk
stage-change views (src/recruitment/views/views.py).

The database is modelled as in-memory lists of rows; Django's
`filter(...).first()` under the models' `Meta.ordering = ["sequence"]` is
modelled as a stable minimum-by-sequence scan, `objects.get(id=...)` as a scan
by id, and `save()` as replace-by-id (insert when the id is absent).
Exceptions (`ValidationError`, `DoesNotExist`, `AttributeError`) are modelled
with `Except`; an error value carries the database as committed so far, since
the code runs in autocommit mode (writes before an exception persist).
-/

namespace ATS

/-- Python exception kinds that the modelled code can raise. -/
inductive PyError
  | validationError (msg : String)
  | doesNotExist (msg : String)
  | attributeError (msg : String)
deriving Repr, DecidableEq

/-- `Stage` model row (models.py:517-555): label, type, sequence and the
`stage_managers` / `stage_interviewers` many-to-many sets (employee ids). -/
structure Stage where
  id : Nat
  recruitment_id : Nat
  stage : String
  stage_type : String
  sequence : Int
  stage_managers : List Nat
  stage_interviewers : List Nat
deriving Repr, DecidableEq

/-- `Recruitment` model row (models.py:151-245): the fields the pipeline engine
reads (vacancy, open positions, event-based flag, manager/interviewer sets). -/
structure Recruitment where
  id : Nat
  vacancy : Int
  is_event_based : Bool
  open_positions : List Nat
  job_position_id : Option Nat
  recruitment_managers : List Nat
  default_stage_manager : List Nat
  l1_interviewer : List Nat
  l2_interviewer : List Nat
  l3_interviewer : List Nat
deriving Repr, DecidableEq

/-- `CandidateApplication` model row (models.py:1288-1429): the fields the
pipeline engine reads and writes. -/
structure CandidateApplication where
  id : Nat
  email : String
  recruitment_id : Nat
  stage_id : Option Nat
  job_position_id : Option Nat
  sequence : Int
  hired : Bool
  canceled : Bool
  converted : Bool
  start_onboard : Bool
  converted_employee_id : Option Nat
deriving Repr, DecidableEq

/-- An `Employee` row, reduced to what the conversion view reads: the linked
user account's username (the candidate's email) set at creation. -/
structure EmployeeRec where
  id : Nat
  username : String
  is_directly_converted : Bool
deriving Repr, DecidableEq

/-- The database: one list of rows per table, plus fresh-id counters for rows
the modelled code creates.  `users` is the list of `auth.User` usernames. -/
structure DB where
  recruitments : List Recruitment
  stages : List Stage
  applications : List CandidateApplication
  employees : List EmployeeRec
  users : List String
  nextStageId : Nat
  nextEmployeeId : Nat
deriving Repr, DecidableEq

/-- `Recruitment.objects.get(id=...)`. -/
def DB.findRecruitment (db : DB) (i : Nat) : Option Recruitment :=
  db.recruitments.find? (fun r => r.id == i)

/-- `Stage.objects.get(id=...)`. -/
def DB.findStage (db : DB) (i : Nat) : Option Stage :=
  db.stages.find? (fun st => st.id == i)

/-- `CandidateApplication.objects.get(id=...)`. -/
def DB.findApp (db : DB) (i : Nat) : Option CandidateApplication :=
  db.applications.find? (fun a => a.id == i)

/-- `filter(...).first()` on stages under `Stage.Meta.ordering = ["sequence"]`:
the row with the least sequence, the earliest row winning ties. -/
def firstBySequence (l : List Stage) : Option Stage :=
  l.foldl
    (fun acc st =>
      match acc with
      | none => some st
      | some b => if st.sequence < b.sequence then some st else acc)
    none

/-- `super().save()` on a `CandidateApplication`: update the row with the same
primary key, or insert the row when the key is new. -/
def persistApp (db : DB) (a : CandidateApplication) : DB :=
  if db.applications.any (fun x => x.id == a.id) then
    { db with applications := db.applications.map (fun x => if x.id == a.id then a else x) }
  else
    { db with applications := db.applications ++ [a] }

/-- `stage.save()` after `get_or_create` (the row already exists): update the
row with the same primary key. -/
def persistStage (db : DB) (s : Stage) : DB :=
  { db with stages := db.stages.map (fun x => if x.id == s.id then s else x) }

/-- Well-formed database: primary keys are unique and below the fresh-id
counters (what the storage layer guarantees). -/
def DBwf (db : DB) : Prop :=
  (db.stages.map Stage.id).Nodup ∧
  (∀ st ∈ db.stages, st.id < db.nextStageId) ∧
  (db.applications.map CandidateApplication.id).Nodup

instance (db : DB) : Decidable (DBwf db) := by
  unfold DBwf; infer_instance

/-! ## `Recruitment.is_vacancy_filled` (models.py:464-474)

The method looks up the first `selected`-type stage of the recruitment and then
reads `selected_stage.candidate_set`.  No model of this code base declares a
relation named `candidate_set` on `Stage`: the `Candidate` model
(models.py:586) is a recruitment-agnostic profile with no `stage_id` foreign
key and no `canceled` field, and `CandidateApplication.stage_id`
(models.py:1364) has no `related_name`, so its reverse accessor is
`candidateapplication_set`.  The attribute access therefore raises
`AttributeError` whenever a selected-type stage exists; when none exists the
method falls through and returns `None`. -/
def is_vacancy_filled (db : DB) (recId : Nat) : Except PyError (Option Bool) :=
  match firstBySequence
      (db.stages.filter (fun st => st.recruitment_id == recId && st.stage_type == "selected")) with
  | some _ => .error (.attributeError "Stage object has no attribute candidate_set")
  | none => .ok none

/-! ## `CandidateApplication.save` (models.py:1535-1573), split along its
source lines into small steps composed by `CandidateApplication.save`. -/

/-- models.py:1536-1537 — `if self.stage_id is not None: self.hired =
self.stage_id.stage_type == "selected"`.  A dangling stage reference cannot
occur in Django (the attribute is a loaded object) and is modelled as an
error. -/
def deriveHired (db : DB) (self : CandidateApplication) :
    Except PyError CandidateApplication :=
  match self.stage_id with
  | none => .ok self
  | some sid =>
    match db.findStage sid with
    | none => .error (.doesNotExist "Stage matching query does not exist")
    | some st => .ok { self with hired := st.stage_type == "selected" }

/-- models.py:1539-1540 — default the job position from the recruitment when
the recruitment is not event based. -/
def defaultJobPosition (rec : Recruitment) (self : CandidateApplication) :
    CandidateApplication :=
  if !rec.is_event_based && self.job_position_id == none then
    { self with job_position_id := rec.job_position_id }
  else self

/-- models.py:1541-1544 — `self.job_position_id not in
self.recruitment_id.open_positions.all()` (note `None` is never a member of
the queryset, so a missing job position also fails this test). -/
def validJobPosition (rec : Recruitment) (self : CandidateApplication) : Bool :=
  match self.job_position_id with
  | none => false
  | some j => rec.open_positions.contains j

/-- models.py:1545-1546 — `if self.stage_id and self.stage_id.stage_type ==
"cancelled": self.canceled = True`. -/
def deriveCanceled (db : DB) (self : CandidateApplication) :
    Except PyError CandidateApplication :=
  match self.stage_id with
  | none => .ok self
  | some sid =>
    match db.findStage sid with
    | none => .error (.doesNotExist "Stage matching query does not exist")
    | some st =>
      .ok (if st.stage_type == "cancelled" then { self with canceled := true } else self)

/-- models.py:1547-1558 — a canceled application is redirected to the
recruitment's cancelled-type stage, lazily created with label
"Cancelled Candidates" and sequence 50 when absent. -/
def redirectCancelled (db : DB) (self : CandidateApplication) :
    DB × CandidateApplication :=
  if self.canceled then
    match firstBySequence
        (db.stages.filter
          (fun st => st.recruitment_id == self.recruitment_id && st.stage_type == "cancelled")) with
    | some cst => (db, { self with stage_id := some cst.id })
    | none =>
      let newStage : Stage :=
        { id := db.nextStageId
          recruitment_id := self.recruitment_id
          stage := "Cancelled Candidates"
          stage_type := "cancelled"
          sequence := 50
          stage_managers := []
          stage_interviewers := [] }
      ({ db with stages := db.stages ++ [newStage], nextStageId := db.nextStageId + 1 },
       { self with stage_id := some newStage.id })
  else (db, self)

/-- models.py:1559-1567 — another application already holds the same converted
employee. -/
def employeeLinkDuplicated (db : DB) (self : CandidateApplication) : Bool :=
  match self.converted_employee_id with
  | none => false
  | some emp =>
    db.applications.any
      (fun a => a.converted_employee_id == some emp && a.id != self.id)

/-- models.py:1569-1571 — conversion supersedes pipeline status. -/
def applyConverted (self : CandidateApplication) : CandidateApplication :=
  if self.converted then { self with hired := false, canceled := false } else self

/-- `CandidateApplication.save` (models.py:1535-1573).  An error carries the
database as committed so far: the lazy cancelled-stage creation at
models.py:1552 is a write that a later `ValidationError` does not roll back. -/
def CandidateApplication.save (db : DB) (self : CandidateApplication) :
    Except (PyError × DB) (DB × CandidateApplication) :=
  match deriveHired db self with
  | .error e => .error (e, db)
  | .ok self1 =>
    match db.findRecruitment self1.recruitment_id with
    | none => .error (.doesNotExist "Recruitment matching query does not exist", db)
    | some rec =>
      let self2 := defaultJobPosition rec self1
      if !validJobPosition rec self2 then
        .error (.validationError "job_position_id: Choose valid choice", db)
      else if rec.is_event_based && self2.job_position_id == none then
        .error (.validationError "job_position_id: This field is required.", db)
      else
        match deriveCanceled db self2 with
        | .error e => .error (e, db)
        | .ok self3 =>
          let (db1, self4) := redirectCancelled db self3
          if employeeLinkDuplicated db1 self4 then
            .error (.validationError "Employee is unique for candidate application", db1)
          else
            let self5 := applyConverted self4
            .ok (persistApp db1 self5, self5)

/-! ## Actors and the manager predicates (views.py:143-194)

`recruitment/decorators.py` is not part of the sources; the drag-and-drop view
imports `is_stagemanager` / `is_recruitmentmanager` from it.  They are embedded
from the identically-named functions in src/recruitment/views/views.py
(lines 143-194), which document the same contract. -/

/-- `request.user` together with `user.employee_get`. -/
structure Actor where
  employee_id : Nat
  is_superuser : Bool
deriving Repr, DecidableEq

/-- `employee.stage_set.all()` — all stages whose `stage_managers` set contains
the employee (reverse of the many-to-many at models.py:541). -/
def employee_stage_set (db : DB) (emp : Nat) : List Stage :=
  db.stages.filter (fun st => st.stage_managers.contains emp)

/-- `is_stagemanager(request)` (views.py:143-161), called without a stage id:
the second component of its result, the stages the employee manages. -/
def is_stagemanager_stages (db : DB) (user : Actor) : List Stage :=
  employee_stage_set db user.employee_id

/-- `is_recruitmentmanager(request, rec_id)` (views.py:171-194), first
component: the employee is among the recruitment's managers, or a superuser. -/
def is_recruitmentmanager (db : DB) (user : Actor) (recId : Nat) :
    Except PyError Bool :=
  match db.findRecruitment recId with
  | none => .error (.doesNotExist "Recruitment matching query does not exist")
  | some rec =>
    .ok (rec.recruitment_managers.contains user.employee_id || user.is_superuser)

/-- The authorization condition of the drag-and-drop view
(candidate_application_views.py:236-247): the actor manages some stage of the
target stage's recruitment, or is a superuser, or is a recruitment manager of
the target stage's recruitment. -/
def stageUpdateAllowed (db : DB) (user : Actor) (stage_obj : Stage) :
    Except PyError Bool :=
  let stage_manager_on_this_recruitment :=
    !((is_stagemanager_stages db user).filter
        (fun st => st.recruitment_id == stage_obj.recruitment_id)).isEmpty
  if stage_manager_on_this_recruitment || user.is_superuser then
    .ok true
  else
    is_recruitmentmanager db user stage_obj.recruitment_id

/-- Outcome of the drag-and-drop view: the JSON "success" / "danger" answer. -/
inductive UpdateResult
  | success
  | danger
deriving Repr, DecidableEq

/-- `candidate_application_stage_update`
(candidate_application_views.py:224-271): the drag-and-drop stage move.  The
notification block is wrapped in `contextlib.suppress(Exception)` and has no
effect on the stored state, so it is not modelled. -/
def candidate_application_stage_update (db : DB) (user : Actor)
    (app_id stageId : Nat) : Except (PyError × DB) (DB × UpdateResult) :=
  match db.findApp app_id with
  | none => .error (.doesNotExist "CandidateApplication matching query does not exist", db)
  | some capp =>
    match db.findStage stageId with
    | none => .error (.doesNotExist "Stage matching query does not exist", db)
    | some stage_obj =>
      match stageUpdateAllowed db user stage_obj with
      | .error e => .error (e, db)
      | .ok false => .ok (db, .danger)
      | .ok true =>
        let capp :=
          { capp with
            stage_id := some stage_obj.id
            hired := stage_obj.stage_type == "selected"
            canceled := stage_obj.stage_type == "cancelled"
            start_onboard := false }
        match capp.save db with
        | .error e => .error e
        | .ok (db1, _) => .ok (db1, .success)

/-! ## Bulk / single stage change (views.py:828-883) -/

/-- One item of `change_candidate_stage` (views.py:840-855 and 857-871): look
the application up, restrict the stage to the application's own recruitment
(`filter(recruitment_id=..., id=...)`, silently yielding nothing on a
mismatch), save, then run the vacancy advisory for selected-type stages.  The
boolean reports whether a save happened. -/
def change_candidate_stage_item (db : DB) (candId stageId : Nat) :
    Except (PyError × DB) (DB × Bool × Option Int) :=
  match db.findApp candId with
  | none => .ok (db, false, none)
  | some capp =>
    match db.stages.find?
        (fun st => st.recruitment_id == capp.recruitment_id && st.id == stageId) with
    | none => .ok (db, false, none)
    | some stage =>
      match CandidateApplication.save db { capp with stage_id := some stage.id } with
      | .error e => .error e
      | .ok (db1, _) =>
        if stage.stage_type == "selected" then
          match db1.findRecruitment stage.recruitment_id with
          | none => .error (.doesNotExist "Recruitment matching query does not exist", db1)
          | some rec =>
            match is_vacancy_filled db1 stage.recruitment_id with
            | .error e => .error (e, db1)
            | .ok (some true) => .ok (db1, true, some rec.vacancy)
            | .ok _ => .ok (db1, true, none)
        else .ok (db1, true, none)

/-! ## Reorder (views.py:706-741) -/

/-- The loop of `update_candidate_stage_and_sequence` (views.py:727-734):
`sequence = index`, `stage_id = stage`, save; a missing application id is
skipped (`except CandidateApplication.DoesNotExist: continue`); any other
exception aborts the request, keeping the writes made so far. -/
def reorderLoop (stage : Option Stage) (ids : List Nat) (idx : Nat) (db : DB) :
    Except (PyError × DB) DB :=
  match ids with
  | [] => .ok db
  | candId :: rest =>
    match db.findApp candId with
    | none => reorderLoop stage rest (idx + 1) db
    | some capp =>
      match CandidateApplication.save db
          { capp with sequence := (idx : Int), stage_id := stage.map Stage.id } with
      | .error e => .error e
      | .ok (db1, _) => reorderLoop stage rest (idx + 1) db1

/-- `update_candidate_stage_and_sequence` (views.py:706-741).  The stage is
fetched once with `filter(id=...).first()` (the cache-or-database split yields
the same row either way); after the loop, a selected-type stage triggers the
vacancy advisory, whose result is the optional context payload. -/
def update_candidate_stage_and_sequence (db : DB) (order_list : List Nat)
    (stageId : Nat) : Except (PyError × DB) (DB × Option Int) :=
  let stage := db.stages.find? (fun st => st.id == stageId)
  match reorderLoop stage order_list 0 db with
  | .error e => .error e
  | .ok db1 =>
    match stage with
    | some st =>
      if st.stage_type == "selected" then
        match db1.findRecruitment st.recruitment_id with
        | none => .error (.doesNotExist "Recruitment matching query does not exist", db1)
        | some rec =>
          match is_vacancy_filled db1 st.recruitment_id with
          | .error e => .error (e, db1)
          | .ok (some true) => .ok (db1, some rec.vacancy)
          | .ok _ => .ok (db1, none)
      else .ok (db1, none)
    | none => .ok (db1, none)

/-! ## `Recruitment.create_default_stages` (models.py:476-514) -/

/-- The `default_stages` table (models.py:480-490): label, type, sequence. -/
def defaultStagesData : List (String × String × Int) :=
  [("Sourced", "sourced", 1),
   ("Shortlisted", "shortlisted", 2),
   ("L1 Interview", "l1_interview", 3),
   ("L2 Interview", "l2_interview", 4),
   ("L3 Interview", "l3_interview", 5),
   ("Test", "test", 6),
   ("Selected", "selected", 7),
   ("Rejected", "rejected", 8),
   ("On Hold", "on-hold", 9)]

/-- The manager/interviewer assignment of models.py:502-512 applied to one
stage row: replace the manager set with the recruitment's default set when
non-empty, and the interviewer set with the level-matched set when the stage
data's type is an interview level with a non-empty set. -/
def applyDefaults (rec : Recruitment) (ty : String) (st : Stage) : Stage :=
  let st :=
    if !rec.default_stage_manager.isEmpty then
      { st with stage_managers := rec.default_stage_manager }
    else st
  if ty == "l1_interview" && !rec.l1_interviewer.isEmpty then
    { st with stage_interviewers := rec.l1_interviewer }
  else if ty == "l2_interview" && !rec.l2_interviewer.isEmpty then
    { st with stage_interviewers := rec.l2_interviewer }
  else if ty == "l3_interview" && !rec.l3_interviewer.isEmpty then
    { st with stage_interviewers := rec.l3_interviewer }
  else st

/-- The row `get_or_create` builds when the (recruitment, label) pair is
absent, with the stage-data type and sequence as defaults. -/
def freshStage (db : DB) (recId : Nat) (sd : String × String × Int) : Stage :=
  { id := db.nextStageId
    recruitment_id := recId
    stage := sd.1
    stage_type := sd.2.1
    sequence := sd.2.2
    stage_managers := []
    stage_interviewers := [] }

/-- One iteration of the loop at models.py:492-514: `get_or_create` by
(recruitment, label) with the type and sequence as creation defaults, then
(re-)assign the default stage managers and the level-matched interviewers when
those sets are non-empty, then `stage.save()`. -/
def ensureDefaultStage (rec : Recruitment) (db : DB)
    (sd : String × String × Int) : DB :=
  match db.stages.find?
      (fun st => st.recruitment_id == rec.id && st.stage == sd.1) with
  | some st => persistStage db (applyDefaults rec sd.2.1 st)
  | none =>
    persistStage
      { db with
          stages := db.stages ++ [freshStage db rec.id sd]
          nextStageId := db.nextStageId + 1 }
      (applyDefaults rec sd.2.1 (freshStage db rec.id sd))

/-- `Recruitment.create_default_stages` (models.py:476-514). -/
def create_default_stages (rec : Recruitment) (db : DB) : DB :=
  defaultStagesData.foldl (ensureDefaultStage rec) db

/-! ## Conversion to employee (candidate_application_views.py:395-448) -/

/-- Outcome of `candidate_application_conversion` as reported to the user. -/
inductive ConvResult
  | alreadyConverted
  | userExists
  | employeeExists
  | success
  | creationFailed (e : PyError)
deriving Repr, DecidableEq

/-- `candidate_application_conversion`
(candidate_application_views.py:395-448).  The employee-work-info update
touches tables outside this embedding and is omitted.  The `except Exception`
at line 443 catches the save failure, so the freshly created employee row
survives it (the surrounding `transaction.atomic` commits, nothing re-raises).
-/
def candidate_application_conversion (db : DB) (app_id : Nat) :
    Except (PyError × DB) (DB × ConvResult) :=
  match db.findApp app_id with
  | none => .error (.doesNotExist "No CandidateApplication matches the given query", db)
  | some capp =>
    if capp.converted_employee_id.isSome then
      .ok (db, .alreadyConverted)
    else
      let user_exists := db.users.contains capp.email
      let employee_exists := db.employees.any (fun e => e.username == capp.email)
      if user_exists then
        .ok (db, .userExists)
      else if !employee_exists then
        let new_employee : EmployeeRec :=
          { id := db.nextEmployeeId, username := capp.email, is_directly_converted := true }
        let db1 :=
          { db with
            employees := db.employees ++ [new_employee]
            nextEmployeeId := db.nextEmployeeId + 1 }
        let capp :=
          { capp with converted_employee_id := some new_employee.id, converted := true }
        match capp.save db1 with
        | .error (e, db2) => .ok (db2, .creationFailed e)
        | .ok (db2, _) => .ok (db2, .success)
      else
        .ok (db, .employeeExists)

/-! ## Generic list lemmas used to reason about the row stores -/

/-- `find?` over an append, when the first part already yields a hit. -/
theorem find?_append_some {α : Type} (p : α → Bool) (l₁ l₂ : List α) (a : α)
    (h : l₁.find? p = some a) : (l₁ ++ l₂).find? p = some a := by
  induction l₁ with
  | nil => simp [List.find?] at h
  | cons x xs ih =>
    simp only [List.cons_append, List.find?] at h ⊢
    cases hx : p x with
    | true => simpa [hx] using h
    | false =>
      rw [hx] at h
      simpa [hx] using ih h

/-- `find?` over an append, when the first part has no hit. -/
theorem find?_append_none {α : Type} (p : α → Bool) (l₁ l₂ : List α)
    (h : l₁.find? p = none) : (l₁ ++ l₂).find? p = l₂.find? p := by
  induction l₁ with
  | nil => simp
  | cons x xs ih =>
    simp only [List.find?] at h
    cases hx : p x with
    | true => simp [hx] at h
    | false =>
      rw [hx] at h
      simpa [List.find?, hx] using ih h

/-- Replacing the row with key `k a` leaves `find?` by key `k a` returning the
replacement, exactly when some row had that key. -/
theorem find?_congr_pointwise {α : Type} {p q : α → Bool} {l : List α}
    (h : ∀ x ∈ l, p x = q x) : l.find? p = l.find? q := by
  induction l with
  | nil => rfl
  | cons x xs ih =>
    have hx := h x (List.mem_cons_self x xs)
    simp only [List.find?]
    rw [hx]
    cases hq : q x with
    | true => rfl
    | false => exact ih (fun y hy => h y (List.mem_cons_of_mem x hy))

/-- If the mapped function preserves the predicate pointwise on the list,
`find?` commutes with `map`. -/
theorem find?_map_of_pred_preserved {α : Type} (p : α → Bool) (g : α → α)
    {l : List α} (h : ∀ x ∈ l, p (g x) = p x) :
    (l.map g).find? p = (l.find? p).map g := by
  induction l with
  | nil => rfl
  | cons x xs ih =>
    have hx := h x (List.mem_cons_self x xs)
    simp only [List.map_cons, List.find?]
    rw [hx]
    cases hpx : p x with
    | true => rfl
    | false => exact ih (fun y hy => h y (List.mem_cons_of_mem x hy))

/-- Replacing the row with key `k a` leaves `find?` by key `k a` returning the
replacement, exactly when some row had that key. -/
theorem find?_key_replace {α : Type} (k : α → Nat) (l : List α) (a : α) :
    (l.map fun x => if k x == k a then a else x).find? (fun x => k x == k a) =
      (if l.any (fun x => k x == k a) then some a else none) := by
  have hpt : ∀ x ∈ l,
      (fun y => k y == k a) ((fun x => if k x == k a then a else x) x) =
        (fun y => k y == k a) x := by
    intro x _
    by_cases hk : k x = k a
    · simp [hk]
    · simp [hk]
  rw [find?_map_of_pred_preserved _ _ hpt]
  cases hf : l.find? (fun y => k y == k a) with
  | none =>
    have : ∀ x ∈ l, ¬ ((k x == k a) = true) := by
      intro x hx
      exact List.find?_eq_none.mp hf x hx
    have hany : l.any (fun x => k x == k a) = false := by
      rw [List.any_eq_false]
      exact this
    simp [hany]
  | some y =>
    have hy : (k y == k a) = true := by
      have := List.find?_some hf
      simpa using this
    have hmem : y ∈ l := List.mem_of_find?_eq_some hf
    have hany : l.any (fun x => k x == k a) = true :=
      List.any_eq_true.mpr ⟨y, hmem, hy⟩
    rw [hany, if_pos rfl]
    simp only [Option.map_some, Option.map_some']
    rw [hy, if_pos rfl]

/-- Replacing the row with key `k a` does not change `find?` by a different
key. -/
theorem find?_key_replace_other {α : Type} (k : α → Nat) (l : List α) (a : α)
    (j : Nat) (hj : j ≠ k a) :
    (l.map fun x => if k x == k a then a else x).find? (fun x => k x == j) =
      l.find? (fun x => k x == j) := by
  have hpt : ∀ x ∈ l,
      (fun y => k y == j) ((fun x => if k x == k a then a else x) x) =
        (fun y => k y == j) x := by
    intro x _
    by_cases hk : k x = k a
    · have h1 : (k a == j) = false := by simp [Ne.symm hj]
      have h2 : (k x == j) = false := by simp [hk, Ne.symm hj]
      simp [hk, h1, h2]
    · simp [hk]
  rw [find?_map_of_pred_preserved _ _ hpt]
  cases hf : l.find? (fun y => k y == j) with
  | none => rfl
  | some y =>
    have hy : (k y == j) = true := by
      have := List.find?_some hf
      simpa using this
    have hyj : k y = j := by simpa using hy
    have hk : (k y == k a) = false := by simp [hyj, hj]
    simp only [Option.map_some, Option.map_some']
    rw [hk, if_neg (by simp)]

/-- With unique keys, `find?` by the key of a member returns that member. -/
theorem find?_key_of_mem_nodup {α : Type} (k : α → Nat) {l : List α} {a : α}
    (hnd : (l.map k).Nodup) (ha : a ∈ l) :
    l.find? (fun x => k x == k a) = some a := by
  induction l with
  | nil => simp at ha
  | cons x xs ih =>
    rw [List.map_cons, List.nodup_cons] at hnd
    rcases List.mem_cons.mp ha with rfl | ha'
    · simp [List.find?]
    · have hx : k x ≠ k a := by
        intro he
        exact hnd.1 (he ▸ List.mem_map_of_mem k ha')
      have hx' : (k x == k a) = false := by simp [hx]
      simp only [List.find?, hx']
      exact ih hnd.2 ha'

/-- With unique keys, replacing a member by itself is the identity. -/
theorem map_replace_self_of_nodup {α : Type} (k : α → Nat) {l : List α} {a : α}
    (hnd : (l.map k).Nodup) (ha : a ∈ l) :
    (l.map fun x => if k x == k a then a else x) = l := by
  have h : ∀ x ∈ l, (if k x == k a then a else x) = x := by
    intro x hx
    by_cases hk : k x = k a
    · have hxa : x = a := List.inj_on_of_nodup_map hnd hx ha hk
      simp [hxa]
    · simp [hk]
  calc (l.map fun x => if k x == k a then a else x) = l.map (fun x => x) :=
        List.map_congr_left h
    _ = l := List.map_id' l

theorem firstBySequence_mem_aux (l : List Stage) :
    ∀ (acc : Option Stage) (st : Stage),
      l.foldl
        (fun acc st =>
          match acc with
          | none => some st
          | some b => if st.sequence < b.sequence then some st else acc)
        acc = some st → st ∈ l ∨ acc = some st := by
  induction l with
  | nil => intro acc st h; exact Or.inr h
  | cons x xs ih =>
    intro acc st h
    rw [List.foldl_cons] at h
    rcases ih _ st h with hmem | hacc
    · exact Or.inl (List.mem_cons_of_mem x hmem)
    · cases acc with
      | none =>
        simp only at hacc
        obtain rfl := Option.some_inj.mp hacc
        exact Or.inl (List.mem_cons_self _ _)
      | some b =>
        simp only at hacc
        by_cases hlt : x.sequence < b.sequence
        · rw [if_pos hlt] at hacc
          obtain rfl := Option.some_inj.mp hacc
          exact Or.inl (List.mem_cons_self _ _)
        · rw [if_neg hlt] at hacc
          exact Or.inr hacc

/-- A result of `firstBySequence` is a member of the scanned list. -/
theorem firstBySequence_mem {l : List Stage} {st : Stage}
    (h : firstBySequence l = some st) : st ∈ l := by
  rcases firstBySequence_mem_aux l none st h with hmem | hacc
  · exact hmem
  · simp at hacc

/-- `firstBySequence` fails exactly on the empty list. -/
theorem firstBySequence_eq_none {l : List Stage} :
    firstBySequence l = none ↔ l = [] := by
  constructor
  · intro h
    cases l with
    | nil => rfl
    | cons x xs =>
      exfalso
      unfold firstBySequence at h
      rw [List.foldl_cons] at h
      have : ∀ (l' : List Stage) (b : Stage),
          l'.foldl
            (fun acc st =>
              match acc with
              | none => some st
              | some b => if st.sequence < b.sequence then some st else acc)
            (some b) ≠ none := by
        intro l'
        induction l' with
        | nil => intro b hb; simp at hb
        | cons y ys ih =>
          intro b hb
          rw [List.foldl_cons] at hb
          by_cases hlt : y.sequence < b.sequence
          · exact ih y (by simpa [hlt] using hb)
          · exact ih b (by simpa [hlt] using hb)
      exact this xs x h
  · intro h; subst h; rfl

/-! ## Characterization lemmas for the steps of `CandidateApplication.save` -/

theorem deriveHired_ok_fields {db : DB} {self b : CandidateApplication}
    (h : deriveHired db self = .ok b) :
    b.id = self.id ∧ b.email = self.email ∧ b.recruitment_id = self.recruitment_id ∧
    b.stage_id = self.stage_id ∧ b.job_position_id = self.job_position_id ∧
    b.sequence = self.sequence ∧ b.canceled = self.canceled ∧
    b.converted = self.converted ∧
    b.converted_employee_id = self.converted_employee_id := by
  unfold deriveHired at h
  split at h
  · simp only [Except.ok.injEq] at h
    subst h; simp
  · split at h
    · simp at h
    · simp only [Except.ok.injEq] at h
      subst h; simp

theorem defaultJobPosition_fields (rec : Recruitment) (self : CandidateApplication) :
    (defaultJobPosition rec self).id = self.id ∧
    (defaultJobPosition rec self).email = self.email ∧
    (defaultJobPosition rec self).recruitment_id = self.recruitment_id ∧
    (defaultJobPosition rec self).stage_id = self.stage_id ∧
    (defaultJobPosition rec self).sequence = self.sequence ∧
    (defaultJobPosition rec self).hired = self.hired ∧
    (defaultJobPosition rec self).canceled = self.canceled ∧
    (defaultJobPosition rec self).converted = self.converted ∧
    (defaultJobPosition rec self).converted_employee_id = self.converted_employee_id := by
  unfold defaultJobPosition
  split <;> simp

theorem deriveCanceled_ok_fields {db : DB} {self b : CandidateApplication}
    (h : deriveCanceled db self = .ok b) :
    b.id = self.id ∧ b.email = self.email ∧ b.recruitment_id = self.recruitment_id ∧
    b.stage_id = self.stage_id ∧ b.job_position_id = self.job_position_id ∧
    b.sequence = self.sequence ∧ b.hired = self.hired ∧
    b.converted = self.converted ∧
    b.converted_employee_id = self.converted_employee_id ∧
    (self.canceled = true → b.canceled = true) := by
  unfold deriveCanceled at h
  split at h
  · simp only [Except.ok.injEq] at h
    subst h; simp
  · split at h
    · simp at h
    · simp only [Except.ok.injEq] at h
      subst h
      constructor
      · split <;> simp
      constructor
      · split <;> simp
      constructor
      · split <;> simp
      constructor
      · split <;> simp
      constructor
      · split <;> simp
      constructor
      · split <;> simp
      constructor
      · split <;> simp
      constructor
      · split <;> simp
      constructor
      · split <;> simp
      · intro hc
        split <;> simp [hc]

theorem applyConverted_fields (self : CandidateApplication) :
    (applyConverted self).id = self.id ∧
    (applyConverted self).email = self.email ∧
    (applyConverted self).recruitment_id = self.recruitment_id ∧
    (applyConverted self).stage_id = self.stage_id ∧
    (applyConverted self).job_position_id = self.job_position_id ∧
    (applyConverted self).sequence = self.sequence ∧
    (applyConverted self).converted = self.converted ∧
    (applyConverted self).converted_employee_id = self.converted_employee_id := by
  unfold applyConverted
  split <;> simp

theorem redirectCancelled_shape {db db1 : DB} {self a4 : CandidateApplication}
    (h : redirectCancelled db self = (db1, a4)) :
    a4.id = self.id ∧ a4.email = self.email ∧
    a4.recruitment_id = self.recruitment_id ∧
    a4.job_position_id = self.job_position_id ∧
    a4.sequence = self.sequence ∧ a4.hired = self.hired ∧
    a4.canceled = self.canceled ∧ a4.converted = self.converted ∧
    a4.converted_employee_id = self.converted_employee_id ∧
    db1.applications = db.applications ∧
    db1.recruitments = db.recruitments ∧
    db1.employees = db.employees ∧ db1.users = db.users ∧
    db1.nextEmployeeId = db.nextEmployeeId ∧
    (db1.stages = db.stages ∧ db1.nextStageId = db.nextStageId ∨
      ∃ ns : Stage, ns.id = db.nextStageId ∧ db1.stages = db.stages ++ [ns] ∧
        db1.nextStageId = db.nextStageId + 1) := by
  unfold redirectCancelled at h
  split at h
  · split at h
    · simp only [Prod.mk.injEq] at h
      obtain ⟨rfl, rfl⟩ := h
      simp
    · simp only [Prod.mk.injEq] at h
      obtain ⟨rfl, rfl⟩ := h
      refine ⟨rfl, rfl, rfl, rfl, rfl, rfl, rfl, rfl, rfl, rfl, rfl, rfl, rfl, rfl, ?_⟩
      exact Or.inr ⟨_, rfl, rfl, rfl⟩
  · simp only [Prod.mk.injEq] at h
    obtain ⟨rfl, rfl⟩ := h
    simp

theorem applyConverted_idem (self : CandidateApplication) :
    applyConverted (applyConverted self) = applyConverted self := by
  unfold applyConverted
  by_cases h : self.converted = true
  · simp [h]
  · simp [h]

/-- Master structural lemma about a successful `save`: the identity-like
fields of the application survive, and the resulting database is the original
one — with at most one freshly created (cancelled) stage appended — in which
the application row was persisted. -/
theorem save_ok_shape {db db' : DB} {self a' : CandidateApplication}
    (h : CandidateApplication.save db self = .ok (db', a')) :
    a'.id = self.id ∧ a'.recruitment_id = self.recruitment_id ∧
    a'.sequence = self.sequence ∧ a'.email = self.email ∧
    a'.converted = self.converted ∧
    a'.converted_employee_id = self.converted_employee_id ∧
    applyConverted a' = a' ∧
    ∃ db1, db' = persistApp db1 a' ∧
      db1.applications = db.applications ∧
      db1.recruitments = db.recruitments ∧
      db1.employees = db.employees ∧ db1.users = db.users ∧
      db1.nextEmployeeId = db.nextEmployeeId ∧
      (db1.stages = db.stages ∧ db1.nextStageId = db.nextStageId ∨
        ∃ ns : Stage, ns.id = db.nextStageId ∧ db1.stages = db.stages ++ [ns] ∧
          db1.nextStageId = db.nextStageId + 1) := by
  unfold CandidateApplication.save at h
  cases h1 : deriveHired db self with
  | error e => rw [h1] at h; simp at h
  | ok a1 =>
    rw [h1] at h
    simp only at h
    obtain ⟨e1id, e1em, e1rec, _, _, e1seq, _, e1conv, e1ce⟩ := deriveHired_ok_fields h1
    cases h2 : db.findRecruitment a1.recruitment_id with
    | none => rw [h2] at h; simp at h
    | some rec =>
      rw [h2] at h
      simp only at h
      split at h
      · simp at h
      · split at h
        · simp at h
        · cases h3 : deriveCanceled db (defaultJobPosition rec a1) with
          | error e => rw [h3] at h; simp at h
          | ok a3 =>
            rw [h3] at h
            simp only at h
            obtain ⟨e3id, e3em, e3rec, _, _, e3seq, _, e3conv, e3ce, _⟩ :=
              deriveCanceled_ok_fields h3
            obtain ⟨e2id, e2em, e2rec, _, e2seq, _, _, e2conv, e2ce⟩ :=
              defaultJobPosition_fields rec a1
            cases h4 : redirectCancelled db a3 with
            | mk db1 a4 =>
              rw [h4] at h
              simp only at h
              obtain ⟨e4id, e4em, e4rec, _, e4seq, _, _, e4conv, e4ce, d4app, d4rec,
                d4emp, d4usr, d4nemp, d4stages⟩ := redirectCancelled_shape h4
              split at h
              · simp at h
              · simp only [Except.ok.injEq, Prod.mk.injEq] at h
                obtain ⟨hdb', ha'⟩ := h
                obtain ⟨e5id, e5em, e5rec, _, _, e5seq, e5conv, e5ce⟩ :=
                  applyConverted_fields a4
                subst ha'
                refine ⟨?_, ?_, ?_, ?_, ?_, ?_, applyConverted_idem a4, db1,
                  hdb'.symm, d4app, d4rec, d4emp, d4usr, d4nemp, d4stages⟩
                · rw [e5id, e4id, e3id, e2id, e1id]
                · rw [e5rec, e4rec, e3rec, e2rec, e1rec]
                · rw [e5seq, e4seq, e3seq, e2seq, e1seq]
                · rw [e5em, e4em, e3em, e2em, e1em]
                · rw [e5conv, e4conv, e3conv, e2conv, e1conv]
                · rw [e5ce, e4ce, e3ce, e2ce, e1ce]

/-! ## Equation lemmas for the save steps and `persistApp` lookups -/

theorem deriveHired_none {db : DB} {self : CandidateApplication}
    (h : self.stage_id = none) : deriveHired db self = .ok self := by
  unfold deriveHired
  rw [h]

theorem deriveHired_some {db : DB} {self : CandidateApplication} {sid : Nat}
    {st : Stage} (h : self.stage_id = some sid) (hst : db.findStage sid = some st) :
    deriveHired db self = .ok { self with hired := st.stage_type == "selected" } := by
  unfold deriveHired
  rw [h]
  simp only [hst]

theorem deriveCanceled_some {db : DB} {self : CandidateApplication} {sid : Nat}
    {st : Stage} (h : self.stage_id = some sid) (hst : db.findStage sid = some st) :
    deriveCanceled db self =
      .ok (if st.stage_type == "cancelled" then { self with canceled := true } else self) := by
  unfold deriveCanceled
  rw [h]
  simp only [hst]

theorem applyConverted_of_not_converted {self : CandidateApplication}
    (h : self.converted = false) : applyConverted self = self := by
  unfold applyConverted
  rw [h]
  simp

theorem applyConverted_of_converted {self : CandidateApplication}
    (h : self.converted = true) :
    applyConverted self = { self with hired := false, canceled := false } := by
  unfold applyConverted
  rw [h]
  simp

theorem redirectCancelled_of_not_canceled {db : DB} {self : CandidateApplication}
    (h : self.canceled = false) : redirectCancelled db self = (db, self) := by
  unfold redirectCancelled
  rw [h]
  simp

theorem redirectCancelled_of_canceled_found {db : DB} {self : CandidateApplication}
    {cst : Stage} (h : self.canceled = true)
    (hf : firstBySequence
        (db.stages.filter
          (fun st => st.recruitment_id == self.recruitment_id &&
            st.stage_type == "cancelled")) = some cst) :
    redirectCancelled db self = (db, { self with stage_id := some cst.id }) := by
  unfold redirectCancelled
  rw [h, hf]
  simp

theorem redirectCancelled_of_canceled_missing {db : DB} {self : CandidateApplication}
    (h : self.canceled = true)
    (hf : firstBySequence
        (db.stages.filter
          (fun st => st.recruitment_id == self.recruitment_id &&
            st.stage_type == "cancelled")) = none) :
    redirectCancelled db self =
      ({ db with
          stages := db.stages ++
            [{ id := db.nextStageId
               recruitment_id := self.recruitment_id
               stage := "Cancelled Candidates"
               stage_type := "cancelled"
               sequence := 50
               stage_managers := []
               stage_interviewers := [] }]
          nextStageId := db.nextStageId + 1 },
        { self with stage_id := some db.nextStageId }) := by
  unfold redirectCancelled
  rw [h, hf]
  simp

theorem persistApp_stages (db : DB) (a : CandidateApplication) :
    (persistApp db a).stages = db.stages := by
  unfold persistApp
  split <;> rfl

theorem persistApp_recruitments (db : DB) (a : CandidateApplication) :
    (persistApp db a).recruitments = db.recruitments := by
  unfold persistApp
  split <;> rfl

theorem persistApp_employees (db : DB) (a : CandidateApplication) :
    (persistApp db a).employees = db.employees := by
  unfold persistApp
  split <;> rfl

theorem persistApp_findApp_self (db : DB) (a : CandidateApplication) :
    (persistApp db a).findApp a.id = some a := by
  unfold persistApp DB.findApp
  split
  next hany =>
    simpa [hany] using find?_key_replace CandidateApplication.id db.applications a
  next hany =>
    have hnone : db.applications.find? (fun x => x.id == a.id) = none := by
      rw [List.find?_eq_none]
      intro x hx hpx
      exact hany (List.any_eq_true.mpr ⟨x, hx, hpx⟩)
    rw [find?_append_none _ _ _ hnone]
    simp [List.find?]

theorem persistApp_findApp_other {j : Nat} (db : DB) (a : CandidateApplication)
    (hj : j ≠ a.id) : (persistApp db a).findApp j = db.findApp j := by
  unfold persistApp DB.findApp
  split
  next hany =>
    simpa using find?_key_replace_other CandidateApplication.id db.applications a j hj
  next hany =>
    cases hf : db.applications.find? (fun x => x.id == j) with
    | some x => simp [find?_append_some _ _ _ _ hf, hf]
    | none =>
      rw [find?_append_none _ _ _ hf]
      have : (a.id == j) = false := by simp [Ne.symm hj]
      simp [List.find?, this, hf]

/-- The applications that keep their primary key set: `persistApp` preserves
key uniqueness of the application table. -/
theorem persistApp_nodup {db : DB} (a : CandidateApplication)
    (h : (db.applications.map CandidateApplication.id).Nodup) :
    ((persistApp db a).applications.map CandidateApplication.id).Nodup := by
  unfold persistApp
  split
  next hany =>
    have hpt : ∀ x ∈ db.applications,
        (CandidateApplication.id ∘ fun x => if x.id == a.id then a else x) x =
          CandidateApplication.id x := by
      intro x hx
      by_cases hxa : x.id = a.id
      · simp [Function.comp, hxa]
      · simp [Function.comp, hxa]
    show (List.map CandidateApplication.id
        (List.map (fun x => if x.id == a.id then a else x) db.applications)).Nodup
    rw [List.map_map, List.map_congr_left hpt]
    exact h
  next hany =>
    simp only [List.map_append, List.map_cons, List.map_nil]
    rw [List.nodup_append]
    refine ⟨h, List.nodup_singleton _, ?_⟩
    intro x hx
    simp only [List.mem_singleton]
    intro hxa
    rcases List.mem_map.mp hx with ⟨y, hy, hyx⟩
    apply hany
    refine List.any_eq_true.mpr ⟨y, hy, ?_⟩
    simp [hyx, hxa]

/-- A successful save leaves every other application row unchanged. -/
theorem save_findApp_other {db db' : DB} {self a' : CandidateApplication} {j : Nat}
    (h : CandidateApplication.save db self = .ok (db', a')) (hj : j ≠ self.id) :
    db'.findApp j = db.findApp j := by
  obtain ⟨hid, _, _, _, _, _, _, db1, hdb', happ, _⟩ := save_ok_shape h
  have hj' : j ≠ a'.id := by rw [hid]; exact hj
  rw [hdb', persistApp_findApp_other db1 a' hj']
  unfold DB.findApp
  rw [happ]

/-- A successful save stores the returned row under the application's key. -/
theorem save_findApp_self {db db' : DB} {self a' : CandidateApplication}
    (h : CandidateApplication.save db self = .ok (db', a')) :
    db'.findApp self.id = some a' := by
  obtain ⟨hid, _, _, _, _, _, _, db1, hdb', happ, _⟩ := save_ok_shape h
  rw [hdb', ← hid, persistApp_findApp_self]

/-- A successful save preserves well-formedness of the database. -/
theorem save_wf {db db' : DB} {self a' : CandidateApplication}
    (h : CandidateApplication.save db self = .ok (db', a')) (hwf : DBwf db) :
    DBwf db' := by
  obtain ⟨_, _, _, _, _, _, _, db1, hdb', happ, _, _, _, _, hst⟩ := save_ok_shape h
  obtain ⟨hnd, hbound, hand⟩ := hwf
  have h1 : (db1.stages.map Stage.id).Nodup ∧ ∀ st ∈ db1.stages, st.id < db1.nextStageId := by
    rcases hst with ⟨hs, hn⟩ | ⟨ns, hnsid, hs, hn⟩
    · rw [hs, hn]; exact ⟨hnd, hbound⟩
    · constructor
      · rw [hs, List.map_append, List.map_cons, List.map_nil]
        rw [List.nodup_append]
        refine ⟨hnd, List.nodup_singleton _, ?_⟩
        intro x hx
        simp only [List.mem_singleton]
        intro hxns
        rcases List.mem_map.mp hx with ⟨y, hy, hyx⟩
        have := hbound y hy
        omega
      · intro st hstm
        rw [hs] at hstm
        rw [hn]
        rcases List.mem_append.mp hstm with hm | hm
        · have := hbound st hm; omega
        · rcases List.mem_singleton.mp hm with rfl
          omega
  refine ⟨?_, ?_, ?_⟩
  · rw [hdb', persistApp_stages]; exact h1.1
  · intro st hstm
    rw [hdb', persistApp_stages] at hstm
    have hnext : db'.nextStageId = db1.nextStageId := by
      rw [hdb']
      unfold persistApp
      split <;> rfl
    rw [hnext]
    exact h1.2 st hstm
  · have : db'.applications = (persistApp db1 a').applications := by rw [hdb']
    rw [this]
    apply persistApp_nodup
    rw [happ]
    exact hand

/-- Margin lemma: the stage produced for a canceled save.  Whenever the
`canceled` flag is true on entry to `save`, the stored stage after a
successful save is a cancelled-type stage of the application's own
recruitment: the first one by sequence when it exists (and then no stage row
changes), else a freshly created `"Cancelled Candidates"` stage with
sequence 50 appended after all existing stages. -/
theorem save_canceled_spec {db db' : DB} {self a' : CandidateApplication}
    (hc : self.canceled = true)
    (h : CandidateApplication.save db self = .ok (db', a')) :
    ∃ cst : Stage, a'.stage_id = some cst.id ∧ cst.stage_type = "cancelled" ∧
      cst.recruitment_id = self.recruitment_id ∧ cst ∈ db'.stages ∧
      (∀ c, firstBySequence (db.stages.filter
          (fun st => st.recruitment_id == self.recruitment_id &&
            st.stage_type == "cancelled")) = some c →
        cst = c ∧ db'.stages = db.stages) ∧
      (firstBySequence (db.stages.filter
          (fun st => st.recruitment_id == self.recruitment_id &&
            st.stage_type == "cancelled")) = none →
        cst = { id := db.nextStageId, recruitment_id := self.recruitment_id,
                stage := "Cancelled Candidates", stage_type := "cancelled",
                sequence := 50, stage_managers := [], stage_interviewers := [] } ∧
        db'.stages = db.stages ++ [cst]) := by
  unfold CandidateApplication.save at h
  cases h1 : deriveHired db self with
  | error e => rw [h1] at h; simp at h
  | ok a1 =>
    rw [h1] at h
    simp only at h
    obtain ⟨e1id, e1em, e1rec, e1sid, e1jp, e1seq, e1can, e1conv, e1ce⟩ :=
      deriveHired_ok_fields h1
    cases h2 : db.findRecruitment a1.recruitment_id with
    | none => rw [h2] at h; simp at h
    | some rec =>
      rw [h2] at h
      simp only at h
      split at h
      · simp at h
      · split at h
        · simp at h
        · cases h3 : deriveCanceled db (defaultJobPosition rec a1) with
          | error e => rw [h3] at h; simp at h
          | ok a3 =>
            rw [h3] at h
            simp only at h
            obtain ⟨e3id, e3em, e3rec, e3sid, e3jp, e3seq, e3h, e3conv, e3ce, e3mono⟩ :=
              deriveCanceled_ok_fields h3
            obtain ⟨e2id, e2em, e2rec, e2sid, e2seq, e2h, e2can, e2conv, e2ce⟩ :=
              defaultJobPosition_fields rec a1
            have hc3 : a3.canceled = true := by
              apply e3mono
              rw [e2can, e1can]
              exact hc
            have hrec3 : a3.recruitment_id = self.recruitment_id := by
              rw [e3rec, e2rec, e1rec]
            cases hfc : firstBySequence (db.stages.filter
                (fun st => st.recruitment_id == a3.recruitment_id &&
                  st.stage_type == "cancelled")) with
            | some cst =>
              rw [redirectCancelled_of_canceled_found hc3 hfc] at h
              simp only at h
              split at h
              · simp at h
              · simp only [Except.ok.injEq, Prod.mk.injEq] at h
                obtain ⟨hdb', ha'⟩ := h
                obtain ⟨f5id, f5em, f5rec, f5sid, f5jp, f5seq, f5conv, f5ce⟩ :=
                  applyConverted_fields { a3 with stage_id := some cst.id }
                have hcfilter : cst ∈ db.stages.filter
                    (fun st => st.recruitment_id == a3.recruitment_id &&
                      st.stage_type == "cancelled") := firstBySequence_mem hfc
                have hcmem : cst ∈ db.stages := (List.mem_filter.mp hcfilter).1
                have hcprop := (List.mem_filter.mp hcfilter).2
                have hcty : cst.stage_type = "cancelled" := by
                  simp only [Bool.and_eq_true, beq_iff_eq] at hcprop
                  exact hcprop.2
                have hcrec : cst.recruitment_id = self.recruitment_id := by
                  simp only [Bool.and_eq_true, beq_iff_eq] at hcprop
                  rw [hcprop.1, hrec3]
                have hstages : db'.stages = db.stages := by
                  rw [← hdb', persistApp_stages]
                rw [hrec3] at hfc
                refine ⟨cst, ?_, hcty, hcrec, ?_, ?_, ?_⟩
                · rw [← ha', f5sid]
                · rw [hstages]; exact hcmem
                · intro c hceq
                  rw [hfc] at hceq
                  exact ⟨(Option.some_inj.mp hceq).symm ▸ rfl, hstages⟩
                · intro hnone
                  rw [hfc] at hnone
                  simp at hnone
            | none =>
              rw [redirectCancelled_of_canceled_missing hc3 hfc] at h
              simp only at h
              split at h
              · simp at h
              · simp only [Except.ok.injEq, Prod.mk.injEq] at h
                obtain ⟨hdb', ha'⟩ := h
                obtain ⟨f5id, f5em, f5rec, f5sid, f5jp, f5seq, f5conv, f5ce⟩ :=
                  applyConverted_fields { a3 with stage_id := some db.nextStageId }
                rw [hrec3] at hfc
                refine ⟨{ id := db.nextStageId, recruitment_id := self.recruitment_id,
                          stage := "Cancelled Candidates", stage_type := "cancelled",
                          sequence := 50, stage_managers := [], stage_interviewers := [] },
                    ?_, rfl, rfl, ?_, ?_, ?_⟩
                · rw [← ha', f5sid]
                · rw [← hdb', persistApp_stages]
                  simp only [hrec3]
                  exact List.mem_append_right _ (List.mem_singleton.mpr rfl)
                · intro c hceq
                  rw [hfc] at hceq
                  simp at hceq
                · intro _
                  refine ⟨rfl, ?_⟩
                  rw [← hdb', persistApp_stages]
                  simp only [hrec3]

/-- The hired/canceled derivation as seen by the drag-and-drop view: when the
assigned stage resolves and the entry `canceled` flag equals the stage-type
test (exactly what the view sets), a successful save leaves the application in
a stage whose type is "selected" exactly when `hired` is set — unless the
application is converted, in which case `hired` is forced off. -/
theorem save_viewmove_spec {db db' : DB} {self a' : CandidateApplication}
    {sid : Nat} {st : Stage}
    (hwf : DBwf db)
    (hsid : self.stage_id = some sid) (hst : db.findStage sid = some st)
    (hcan : self.canceled = (st.stage_type == "cancelled"))
    (h : CandidateApplication.save db self = .ok (db', a')) :
    ∃ stf : Stage, a'.stage_id = some stf.id ∧ db'.findStage stf.id = some stf ∧
      (a'.hired = true ↔
        (stf.stage_type = "selected" ∧ a'.canceled = false ∧ a'.converted = false)) := by
  have hstid : st.id = sid := by
    have := List.find?_some hst
    simpa using this
  cases hty : st.stage_type == "cancelled" with
  | true =>
    have hself : self.canceled = true := by rw [hcan, hty]
    obtain ⟨cst, hsid', hcty, hcrec, hcmem, _, _⟩ := save_canceled_spec hself h
    obtain ⟨hid, _, _, _, hconv, _, _, db1, hdb', happ, _, _, _, _, hstshape⟩ := save_ok_shape h
    have hhired : a'.hired = false := by
      unfold CandidateApplication.save at h
      rw [deriveHired_some hsid hst] at h
      simp only at h
      cases h2 : db.findRecruitment self.recruitment_id with
      | none => rw [h2] at h; simp at h
      | some rec =>
        rw [h2] at h
        simp only at h
        split at h
        · simp at h
        · split at h
          · simp at h
          · cases h3 : deriveCanceled db
                (defaultJobPosition rec { self with hired := st.stage_type == "selected" }) with
            | error e => rw [h3] at h; simp at h
            | ok a3 =>
              rw [h3] at h
              simp only at h
              obtain ⟨_, _, _, _, _, _, e3h, _, _, _⟩ := deriveCanceled_ok_fields h3
              obtain ⟨_, _, _, _, _, e2h, _, _, _⟩ :=
                defaultJobPosition_fields rec { self with hired := st.stage_type == "selected" }
              have ha3h : a3.hired = false := by
                rw [e3h, e2h]
                show (st.stage_type == "selected") = false
                have : st.stage_type = "cancelled" := by simpa using hty
                rw [this]
                decide
              cases h4 : redirectCancelled db a3 with
              | mk db1 a4 =>
                rw [h4] at h
                simp only at h
                obtain ⟨_, _, _, _, _, e4h, _, _, _, _⟩ := redirectCancelled_shape h4
                split at h
                · simp at h
                · simp only [Except.ok.injEq, Prod.mk.injEq] at h
                  obtain ⟨_, ha'⟩ := h
                  rw [← ha']
                  unfold applyConverted
                  split
                  · rfl
                  · rw [e4h, ha3h]
    refine ⟨cst, hsid', ?_, ?_⟩
    · unfold DB.findStage
      apply find?_key_of_mem_nodup Stage.id _ hcmem
      have hstages : db'.stages = db1.stages := by rw [hdb', persistApp_stages]
      rw [hstages]
      rcases hstshape with ⟨hs, _⟩ | ⟨ns, hnsid, hs, _⟩
      · rw [hs]; exact hwf.1
      · rw [hs, List.map_append, List.map_cons, List.map_nil, List.nodup_append]
        refine ⟨hwf.1, List.nodup_singleton _, ?_⟩
        intro x hx
        simp only [List.mem_singleton]
        intro hxns
        rcases List.mem_map.mp hx with ⟨y, hy, hyx⟩
        have := hwf.2.1 y hy
        omega
    · rw [hhired]
      constructor
      · intro hfalse; exact absurd hfalse (by decide)
      · rintro ⟨hsel, _, _⟩
        rw [hcty] at hsel
        exact absurd hsel (by decide)
  | false =>
    have hself : self.canceled = false := by rw [hcan, hty]
    unfold CandidateApplication.save at h
    rw [deriveHired_some hsid hst] at h
    simp only at h
    cases h2 : db.findRecruitment self.recruitment_id with
    | none => rw [h2] at h; simp at h
    | some rec =>
      rw [h2] at h
      simp only at h
      split at h
      · simp at h
      · split at h
        · simp at h
        · rw [deriveCanceled_some
              (show (defaultJobPosition rec { self with hired := st.stage_type == "selected" }).stage_id = some sid by
                rw [(defaultJobPosition_fields rec _).2.2.2.1]
                exact hsid)
              hst] at h
          rw [hty] at h
          simp only [if_neg (by decide : ¬ (false = true))] at h
          rw [redirectCancelled_of_not_canceled
              (show (defaultJobPosition rec { self with hired := st.stage_type == "selected" }).canceled = false by
                rw [(defaultJobPosition_fields rec _).2.2.2.2.2.2.1]
                exact hself)] at h
          simp only at h
          split at h
          · simp at h
          · simp only [Except.ok.injEq, Prod.mk.injEq] at h
            obtain ⟨hdb', ha'⟩ := h
            set a2 := defaultJobPosition rec { self with hired := st.stage_type == "selected" } with ha2
            obtain ⟨g2id, g2em, g2rec, g2sid, g2seq, g2h, g2can, g2conv, g2ce⟩ :=
              defaultJobPosition_fields rec { self with hired := st.stage_type == "selected" }
            have ha2sid : a2.stage_id = some sid := by rw [← ha2] at g2sid; rw [g2sid]; exact hsid
            have ha2h : a2.hired = (st.stage_type == "selected") := by
              rw [← ha2] at g2h; rw [g2h]
            have ha2can : a2.canceled = false := by
              rw [← ha2] at g2can; rw [g2can]; exact hself
            have hfstage : db'.findStage st.id = some st := by
              have hstages : db'.stages = db.stages := by
                rw [← hdb', persistApp_stages]
              unfold DB.findStage
              rw [hstages, hstid]
              exact hst
            refine ⟨st, ?_, hfstage, ?_⟩
            · rw [← ha', (applyConverted_fields a2).2.2.2.1, ha2sid, hstid]
            · cases hcv : a2.converted with
              | true =>
                rw [← ha', applyConverted_of_converted hcv]
                simp [hcv]
              | false =>
                rw [← ha', applyConverted_of_not_converted hcv]
                rw [ha2h, ha2can, hcv]
                constructor
                · intro hsel
                  refine ⟨by simpa using hsel, rfl, rfl⟩
                · rintro ⟨hsel, _, _⟩
                  simp [hsel]

/-! ## Concrete fixtures used by witnesses and counterexamples -/

/-- A recruitment with vacancy 2, one open position, recruitment manager 9. -/
def recA : Recruitment :=
  { id := 1, vacancy := 2, is_event_based := false, open_positions := [1],
    job_position_id := some 1, recruitment_managers := [9],
    default_stage_manager := [], l1_interviewer := [], l2_interviewer := [],
    l3_interviewer := [] }

def stageSourcedA : Stage :=
  { id := 10, recruitment_id := 1, stage := "Sourced", stage_type := "sourced",
    sequence := 1, stage_managers := [5], stage_interviewers := [] }

def stageSelectedA : Stage :=
  { id := 11, recruitment_id := 1, stage := "Selected", stage_type := "selected",
    sequence := 7, stage_managers := [], stage_interviewers := [] }

def stageCancelledA : Stage :=
  { id := 12, recruitment_id := 1, stage := "Cancelled", stage_type := "cancelled",
    sequence := 8, stage_managers := [], stage_interviewers := [] }

def appA : CandidateApplication :=
  { id := 100, email := "a@b.c", recruitment_id := 1, stage_id := some 10,
    job_position_id := some 1, sequence := 0, hired := false, canceled := false,
    converted := false, start_onboard := false, converted_employee_id := none }

def dbA : DB :=
  { recruitments := [recA], stages := [stageSourcedA, stageSelectedA, stageCancelledA],
    applications := [appA], employees := [], users := [], nextStageId := 100,
    nextEmployeeId := 50 }

/-- A superuser (employee id 5). -/
def actorSuper : Actor := { employee_id := 5, is_superuser := true }

/-- Employee 5, not a superuser; in `dbA` they manage only the Sourced stage. -/
def actorStageMgr : Actor := { employee_id := 5, is_superuser := false }

/-- Employee 6: manages nothing, not a superuser, not a recruitment manager. -/
def actorNobody : Actor := { employee_id := 6, is_superuser := false }

/-! ## C1 — hired flag after the drag-and-drop stage move -/

/-- C1, counterexample to the claim as stated: a converted application moved
into a selected-type stage ends with `hired = false` although its resulting
stage has type "selected" and `canceled = false` — `save` forces
`hired = false` whenever `converted` is true (models.py:1569-1571), so the
claimed "iff" fails on converted applications. -/
theorem C1_counterexample :
    (candidate_application_stage_update
        { dbA with applications :=
            [{ appA with converted := true, converted_employee_id := some 7 }] }
        actorSuper 100 11).toOption.bind
      (fun p => (p.1.findApp 100).map
        (fun a => (p.2, a.stage_id, a.hired, a.canceled, a.converted))) =
      some (UpdateResult.success, some 11, false, false, true) ∧
    ((dbA.findStage 11).map Stage.stage_type = some "selected") := by
  constructor
  · rfl
  · rfl

/-- C1 (amended): after every successful drag-and-drop stage move
(`candidate_application_stage_update` returning "success"), the stored
application's `hired` flag is true iff the resulting stage's type is
"selected", its `canceled` flag is false, **and the application is not
converted** — the `converted` proviso is forced by models.py:1569-1571, which
clears `hired` on converted applications after the stage-type derivation. -/
theorem C1_hired_iff_selected_after_move {db db' : DB} {user : Actor}
    {app_id stageId : Nat}
    (hwf : DBwf db)
    (h : candidate_application_stage_update db user app_id stageId =
      .ok (db', .success)) :
    ∀ a', db'.findApp app_id = some a' →
      ∃ stf : Stage, a'.stage_id = some stf.id ∧ db'.findStage stf.id = some stf ∧
        (a'.hired = true ↔
          (stf.stage_type = "selected" ∧ a'.canceled = false ∧
            a'.converted = false)) := by
  unfold candidate_application_stage_update at h
  cases happ : db.findApp app_id with
  | none => rw [happ] at h; simp at h
  | some capp =>
    rw [happ] at h
    simp only at h
    cases hstage : db.findStage stageId with
    | none => rw [hstage] at h; simp at h
    | some stage_obj =>
      rw [hstage] at h
      simp only at h
      cases hallow : stageUpdateAllowed db user stage_obj with
      | error e => rw [hallow] at h; simp at h
      | ok b =>
        rw [hallow] at h
        cases b with
        | false => simp at h
        | true =>
          simp only at h
          cases hsave : CandidateApplication.save db
              { capp with
                stage_id := some stage_obj.id
                hired := stage_obj.stage_type == "selected"
                canceled := stage_obj.stage_type == "cancelled"
                start_onboard := false } with
          | error e => rw [hsave] at h; simp at h
          | ok p =>
            obtain ⟨db1, a5⟩ := p
            rw [hsave] at h
            simp only [Except.ok.injEq, Prod.mk.injEq] at h
            obtain ⟨hdb1, -⟩ := h
            rw [← hdb1]
            have hobjid : stage_obj.id = stageId := by
              have := List.find?_some hstage
              simpa using this
            have hst' : db.findStage stage_obj.id = some stage_obj := by
              rw [hobjid]; exact hstage
            obtain ⟨stf, hstf1, hstf2, hstf3⟩ :=
              save_viewmove_spec hwf rfl hst' rfl hsave
            intro a' ha'
            have hcappid : capp.id = app_id := by
              have := List.find?_some happ
              simpa using this
            have hself : db1.findApp app_id = some a5 := by
              have := save_findApp_self hsave
              simpa [hcappid] using this
            rw [hself] at ha'
            obtain rfl := Option.some_inj.mp ha'
            exact ⟨stf, hstf1, hstf2, hstf3⟩

/-- The database `dbA` after the successful move of application 100 into the
Selected stage. -/
def dbAafterSel : DB :=
  { dbA with applications :=
      [{ appA with
          stage_id := some 11,
          hired := true,
          canceled := false,
          start_onboard := false }] }

/-- C1 witness: a concrete successful move of a non-converted application into
the Selected stage, on which the amended theorem applies. -/
theorem C1_witness :
    DBwf dbA ∧
    candidate_application_stage_update dbA actorSuper 100 11 =
      .ok (dbAafterSel, .success) ∧
    (∀ a', dbAafterSel.findApp 100 = some a' →
      ∃ stf : Stage, a'.stage_id = some stf.id ∧
        dbAafterSel.findStage stf.id = some stf ∧
        (a'.hired = true ↔
          (stf.stage_type = "selected" ∧ a'.canceled = false ∧
            a'.converted = false))) :=
  ⟨by decide, by rfl,
    @C1_hired_iff_selected_after_move dbA dbAafterSel actorSuper 100 11
      (by decide) (by rfl)⟩

/-! ## C2 — authorization of the drag-and-drop stage move -/

/-- The authorization predicate actually enforced by the code: superuser, or
manager of *some* stage of the target stage's recruitment, or recruitment
manager of the target stage's recruitment. -/
def AllowedByCode (db : DB) (user : Actor) (stage_obj : Stage) (rec : Recruitment) :
    Prop :=
  user.is_superuser = true ∨
  (∃ s ∈ db.stages, s.recruitment_id = stage_obj.recruitment_id ∧
    s.stage_managers.contains user.employee_id = true) ∨
  rec.recruitment_managers.contains user.employee_id = true

instance (db : DB) (user : Actor) (stage_obj : Stage) (rec : Recruitment) :
    Decidable (AllowedByCode db user stage_obj rec) := by
  unfold AllowedByCode; infer_instance

theorem stageUpdateAllowed_eq {db : DB} {user : Actor} {stage_obj : Stage}
    {rec : Recruitment}
    (hrec : db.findRecruitment stage_obj.recruitment_id = some rec) :
    stageUpdateAllowed db user stage_obj =
      .ok (!((employee_stage_set db user.employee_id).filter
            (fun st => st.recruitment_id == stage_obj.recruitment_id)).isEmpty ||
          user.is_superuser ||
          (rec.recruitment_managers.contains user.employee_id || user.is_superuser)) := by
  unfold stageUpdateAllowed is_stagemanager_stages is_recruitmentmanager
  cases hcond : (!((employee_stage_set db user.employee_id).filter
      (fun st => st.recruitment_id == stage_obj.recruitment_id)).isEmpty ||
      user.is_superuser) with
  | true =>
    rw [if_pos (by rw [hcond])]
    simp
  | false =>
    rw [if_neg (by rw [hcond]; simp), hrec]
    simp

theorem allowed_bool_iff (db : DB) (user : Actor) (stage_obj : Stage)
    (rec : Recruitment) :
    ((!((employee_stage_set db user.employee_id).filter
          (fun st => st.recruitment_id == stage_obj.recruitment_id)).isEmpty ||
        user.is_superuser ||
        (rec.recruitment_managers.contains user.employee_id || user.is_superuser)) =
      true) ↔ AllowedByCode db user stage_obj rec := by
  unfold AllowedByCode employee_stage_set
  constructor
  · intro h
    rcases Bool.or_eq_true_iff.mp h with h1 | h2
    · rcases Bool.or_eq_true_iff.mp h1 with hf | hsu
      · rw [Bool.not_eq_true', List.isEmpty_eq_false_iff_exists_mem] at hf
        obtain ⟨s, hs⟩ := hf
        have hs1 := List.mem_filter.mp hs
        have hs2 := List.mem_filter.mp hs1.1
        refine Or.inr (Or.inl ⟨s, hs2.1, ?_, hs2.2⟩)
        simpa using hs1.2
      · exact Or.inl hsu
    · rcases Bool.or_eq_true_iff.mp h2 with hm | hsu
      · exact Or.inr (Or.inr hm)
      · exact Or.inl hsu
  · intro h
    rcases h with hsu | ⟨s, hsmem, hsrec, hsmgr⟩ | hm
    · rw [hsu]; simp
    · have hs : s ∈ (db.stages.filter
          (fun st => st.stage_managers.contains user.employee_id)).filter
            (fun st => st.recruitment_id == stage_obj.recruitment_id) := by
        rw [List.mem_filter]
        refine ⟨List.mem_filter.mpr ⟨hsmem, hsmgr⟩, by simp [hsrec]⟩
      have : ((db.stages.filter
          (fun st => st.stage_managers.contains user.employee_id)).filter
            (fun st => st.recruitment_id == stage_obj.recruitment_id)).isEmpty = false := by
        rw [List.isEmpty_eq_false_iff_exists_mem]
        exact ⟨s, hs⟩
      rw [this]
      simp
    · rw [hm]
      simp

/-- C2, counterexample to the claim as stated: employee 5 is a manager of the
Sourced stage only — not of the target Selected stage — and is neither a
superuser nor a recruitment manager, yet the drag-and-drop move succeeds and
changes the application's stage.  The code checks membership in *any* stage of
the target's recruitment (candidate_application_views.py:237-241), not the
target stage itself. -/
theorem C2_counterexample :
    actorStageMgr.is_superuser = false ∧
    stageSelectedA.stage_managers.contains actorStageMgr.employee_id = false ∧
    recA.recruitment_managers.contains actorStageMgr.employee_id = false ∧
    candidate_application_stage_update dbA actorStageMgr 100 11 =
      .ok (dbAafterSel, .success) ∧
    (dbAafterSel.findApp 100).map CandidateApplication.stage_id ≠
      (dbA.findApp 100).map CandidateApplication.stage_id := by
  exact ⟨rfl, rfl, rfl, by rfl, by decide⟩

/-- C2 (amended): a drag-and-drop stage move is allowed iff the actor is a
superuser, or a manager of **some stage of the target stage's recruitment**
(not necessarily the target stage), or a recruitment manager of the target
stage's recruitment; any other actor receives the "danger" rejection and the
database — in particular the application's stage and flags — is returned
unchanged. -/
theorem C2_authorization_amended {db : DB} {user : Actor} {app_id stageId : Nat}
    {capp : CandidateApplication} {stage_obj : Stage} {rec : Recruitment}
    (happ : db.findApp app_id = some capp)
    (hstage : db.findStage stageId = some stage_obj)
    (hrec : db.findRecruitment stage_obj.recruitment_id = some rec) :
    (¬ AllowedByCode db user stage_obj rec →
      candidate_application_stage_update db user app_id stageId =
        .ok (db, .danger)) ∧
    (AllowedByCode db user stage_obj rec →
      ∀ db' r, candidate_application_stage_update db user app_id stageId =
          .ok (db', r) → r = .success) := by
  unfold candidate_application_stage_update
  rw [happ]
  simp only
  rw [hstage]
  simp only
  rw [stageUpdateAllowed_eq hrec]
  constructor
  · intro hnall
    have hb : (!((employee_stage_set db user.employee_id).filter
          (fun st => st.recruitment_id == stage_obj.recruitment_id)).isEmpty ||
        user.is_superuser ||
        (rec.recruitment_managers.contains user.employee_id || user.is_superuser)) =
        false := by
      rw [← Bool.not_eq_true]
      intro hx
      exact hnall ((allowed_bool_iff db user stage_obj rec).mp hx)
    rw [hb]
  · intro hall db' r h
    have hb := (allowed_bool_iff db user stage_obj rec).mpr hall
    rw [hb] at h
    simp only at h
    cases hsave : CandidateApplication.save db
        { capp with
          stage_id := some stage_obj.id
          hired := stage_obj.stage_type == "selected"
          canceled := stage_obj.stage_type == "cancelled"
          start_onboard := false } with
    | error e => rw [hsave] at h; simp at h
    | ok p =>
      obtain ⟨db1, a5⟩ := p
      rw [hsave] at h
      simp only [Except.ok.injEq, Prod.mk.injEq] at h
      exact h.2.symm

/-- C2 witness: employee 6 manages no stage, is no superuser and no
recruitment manager; the move is rejected with "danger" and the database is
returned unchanged. -/
theorem C2_witness :
    dbA.findApp 100 = some appA ∧
    dbA.findStage 11 = some stageSelectedA ∧
    dbA.findRecruitment stageSelectedA.recruitment_id = some recA ∧
    candidate_application_stage_update dbA actorNobody 100 11 =
      .ok (dbA, .danger) :=
  ⟨by rfl, by rfl, by rfl,
    (@C2_authorization_amended dbA actorNobody 100 11 appA stageSelectedA recA
      (by rfl) (by rfl) (by rfl)).1 (by decide)⟩

/-! ## C7 — cross-recruitment guard -/

/-- A second recruitment, used to build a cross-recruitment move. -/
def recB : Recruitment :=
  { id := 2, vacancy := 2, is_event_based := false, open_positions := [1],
    job_position_id := some 1, recruitment_managers := [9],
    default_stage_manager := [], l1_interviewer := [], l2_interviewer := [],
    l3_interviewer := [] }

/-- A stage belonging to recruitment 2 while the application is in
recruitment 1. -/
def stageForeignB : Stage :=
  { id := 30, recruitment_id := 2, stage := "Sourced", stage_type := "sourced",
    sequence := 1, stage_managers := [], stage_interviewers := [] }

def dbAB : DB :=
  { recruitments := [recA, recB],
    stages := [stageSourcedA, stageSelectedA, stageCancelledA, stageForeignB],
    applications := [appA], employees := [], users := [], nextStageId := 100,
    nextEmployeeId := 50 }

/-- `dbAB` after the drag-and-drop move of application 100 (recruitment 1)
into the foreign stage 30 (recruitment 2). -/
def dbABafterForeign : DB :=
  { dbAB with applications :=
      [{ appA with
          stage_id := some 30,
          hired := false,
          canceled := false,
          start_onboard := false }] }

/-- C7, counterexample to the claim as stated: the drag-and-drop stage-update
view performs no cross-recruitment check; a superuser's move of application
100 (recruitment 1) into stage 30 (recruitment 2) succeeds and stores the
foreign stage — no validation error, and the stage does change. -/
theorem C7_counterexample :
    stageForeignB.recruitment_id ≠ appA.recruitment_id ∧
    candidate_application_stage_update dbAB actorSuper 100 30 =
      .ok (dbABafterForeign, .success) ∧
    (dbABafterForeign.findApp 100).map CandidateApplication.stage_id =
      some (some 30) := by
  exact ⟨by decide, by rfl, by rfl⟩

/-- C7 (amended): only the `change_candidate_stage` path restricts the target
stage to the application's recruitment, and a cross-recruitment target there
is *silently skipped* — no save, no advisory, the whole database unchanged,
but no validation error either; the drag-and-drop path performs no
cross-recruitment check at all and moves the application into the foreign
stage. -/
theorem C7_cross_recruitment_amended :
    (∀ (db : DB) (candId stageId : Nat) (capp : CandidateApplication) (st : Stage),
      db.findApp candId = some capp →
      db.findStage stageId = some st →
      st.recruitment_id ≠ capp.recruitment_id →
      DBwf db →
      change_candidate_stage_item db candId stageId = .ok (db, false, none)) ∧
    candidate_application_stage_update dbAB actorSuper 100 30 =
      .ok (dbABafterForeign, .success) := by
  constructor
  · intro db candId stageId capp st happ hstage hdiff hwf
    unfold change_candidate_stage_item
    rw [happ]
    simp only
    have hstid : st.id = stageId := by
      have := List.find?_some hstage
      simpa using this
    have hnone : db.stages.find?
        (fun s => s.recruitment_id == capp.recruitment_id && s.id == stageId) =
          none := by
      rw [List.find?_eq_none]
      intro x hx hpx
      simp only [Bool.and_eq_true, beq_iff_eq] at hpx
      have hxst : x = st := by
        apply List.inj_on_of_nodup_map hwf.1 hx (List.mem_of_find?_eq_some hstage)
        rw [hpx.2, hstid]
      exact hdiff (hxst ▸ hpx.1)
    rw [hnone]
  · rfl

/-- C7 witness: the cross-recruitment request on the bulk path leaves the
database untouched and reports no save. -/
theorem C7_witness :
    change_candidate_stage_item dbAB 100 30 = .ok (dbAB, false, none) :=
  C7_cross_recruitment_amended.1 dbAB 100 30 appA stageForeignB (by rfl) (by rfl)
    (by decide) (by decide)

/-! ## C8 — job position outside the recruitment's open positions -/

theorem validJobPosition_some {rec : Recruitment} {self : CandidateApplication}
    {j : Nat} (h : self.job_position_id = some j) :
    validJobPosition rec self = rec.open_positions.contains j := by
  unfold validJobPosition
  rw [h]

theorem defaultJobPosition_some {rec : Recruitment} {self : CandidateApplication}
    {j : Nat} (h : self.job_position_id = some j) :
    defaultJobPosition rec self = self := by
  unfold defaultJobPosition
  rw [h]
  simp

/-- C8 (confirmed): saving an application whose job position is set but not in
its recruitment's open-position set raises `ValidationError` before any write:
the returned database is exactly the input database, so no row is persisted. -/
theorem C8_invalid_job_position_rejected {db : DB} {self : CandidateApplication}
    {rec : Recruitment} {j : Nat}
    (hrec : db.findRecruitment self.recruitment_id = some rec)
    (hjp : self.job_position_id = some j)
    (hnot : rec.open_positions.contains j = false)
    (hstage : ∀ sid, self.stage_id = some sid → (db.findStage sid).isSome) :
    CandidateApplication.save db self =
      .error (.validationError "job_position_id: Choose valid choice", db) := by
  unfold CandidateApplication.save
  cases hsid : self.stage_id with
  | none =>
    rw [deriveHired_none hsid]
    simp only
    rw [hrec]
    simp only
    rw [defaultJobPosition_some hjp, validJobPosition_some hjp, hnot]
    rw [if_pos (by simp)]
  | some sid =>
    obtain ⟨st, hst⟩ := Option.isSome_iff_exists.mp (hstage sid hsid)
    rw [deriveHired_some hsid hst]
    simp only
    rw [hrec]
    simp only
    rw [@defaultJobPosition_some rec
        { self with hired := st.stage_type == "selected" } j hjp,
      @validJobPosition_some rec
        { self with hired := st.stage_type == "selected" } j hjp,
      hnot]
    rw [if_pos (by simp)]

/-- C8 witness: a concrete application pointing at job position 99, which is
not among recruitment 1's open positions. -/
theorem C8_witness :
    dbA.findRecruitment appA.recruitment_id = some recA ∧
    recA.open_positions.contains 99 = false ∧
    CandidateApplication.save dbA { appA with job_position_id := some 99 } =
      .error (.validationError "job_position_id: Choose valid choice", dbA) :=
  ⟨by rfl, by rfl,
    @C8_invalid_job_position_rejected dbA { appA with job_position_id := some 99 }
      recA 99 (by rfl) (by rfl) (by rfl) (by decide)⟩

/-! ## C3 — cancellation redirection and lazy cancelled-stage creation -/

/-- C3 (confirmed): a successful save of an application whose `canceled` flag
is true ends in a cancelled-type stage of its own recruitment, whatever stage
was nominally assigned; when the recruitment has no cancelled-type stage one
is created with label "Cancelled Candidates" and sequence 50, appended after
all existing stage rows without touching any sibling (`db'.stages` is exactly
`db.stages ++ [cst]`); when one exists, no stage row changes at all. -/
theorem C3_cancel_redirects_to_cancelled_stage :
    ∀ (db db' : DB) (self a' : CandidateApplication),
      self.canceled = true →
      CandidateApplication.save db self = .ok (db', a') →
      ∃ cst : Stage,
        a'.stage_id = some cst.id ∧ cst.stage_type = "cancelled" ∧
        cst.recruitment_id = self.recruitment_id ∧ cst ∈ db'.stages ∧
        (firstBySequence (db.stages.filter (fun st =>
            st.recruitment_id == self.recruitment_id &&
              st.stage_type == "cancelled")) = none →
          cst.sequence = 50 ∧ cst.stage = "Cancelled Candidates" ∧
            db'.stages = db.stages ++ [cst]) ∧
        (∀ c, firstBySequence (db.stages.filter (fun st =>
            st.recruitment_id == self.recruitment_id &&
              st.stage_type == "cancelled")) = some c →
          cst = c ∧ db'.stages = db.stages) := by
  intro db db' self a' hc h
  obtain ⟨cst, h1, h2, h3, h4, hsome, hnone⟩ := save_canceled_spec hc h
  refine ⟨cst, h1, h2, h3, h4, ?_, hsome⟩
  intro hn
  obtain ⟨hcst, hstages⟩ := hnone hn
  refine ⟨?_, ?_, hstages⟩
  · rw [hcst]
  · rw [hcst]

/-- A cancel request on an application of a recruitment that has no
cancelled-type stage yet. -/
def appAcancelReq : CandidateApplication := { appA with canceled := true }

def dbNoCancel : DB := { dbA with stages := [stageSourcedA, stageSelectedA] }

/-- The stage lazily created by `save` for that request. -/
def stageAutoCancel : Stage :=
  { id := 100, recruitment_id := 1, stage := "Cancelled Candidates",
    stage_type := "cancelled", sequence := 50, stage_managers := [],
    stage_interviewers := [] }

def appAcancelRes : CandidateApplication :=
  { appA with canceled := true, stage_id := some 100 }

def dbNoCancelRes : DB :=
  { dbNoCancel with
      stages := [stageSourcedA, stageSelectedA, stageAutoCancel],
      applications := [appAcancelRes],
      nextStageId := 101 }

/-- C3 witness: the concrete cancel request creating the cancelled stage. -/
theorem C3_witness :
    appAcancelReq.canceled = true ∧
    CandidateApplication.save dbNoCancel appAcancelReq =
      .ok (dbNoCancelRes, appAcancelRes) ∧
    (∃ cst : Stage,
      appAcancelRes.stage_id = some cst.id ∧ cst.stage_type = "cancelled" ∧
      cst.recruitment_id = appAcancelReq.recruitment_id ∧ cst ∈ dbNoCancelRes.stages ∧
      (firstBySequence (dbNoCancel.stages.filter (fun st =>
          st.recruitment_id == appAcancelReq.recruitment_id &&
            st.stage_type == "cancelled")) = none →
        cst.sequence = 50 ∧ cst.stage = "Cancelled Candidates" ∧
          dbNoCancelRes.stages = dbNoCancel.stages ++ [cst]) ∧
      (∀ c, firstBySequence (dbNoCancel.stages.filter (fun st =>
          st.recruitment_id == appAcancelReq.recruitment_id &&
            st.stage_type == "cancelled")) = some c →
        cst = c ∧ dbNoCancelRes.stages = dbNoCancel.stages)) :=
  ⟨by rfl, by rfl,
    C3_cancel_redirects_to_cancelled_stage dbNoCancel dbNoCancelRes appAcancelReq
      appAcancelRes (by rfl) (by rfl)⟩

/-! ## C10 — the canceled flag pins the application to the cancelled stage -/

/-- C10 (confirmed): whenever the `canceled` flag is true at save time, the
stored stage after the save is a cancelled-type stage of the application's
recruitment, regardless of the stage the caller assigned; consequently the
bulk `change_candidate_stage` path — which never clears `canceled` — leaves a
previously canceled application in the cancelled stage instead of the
requested one. -/
theorem C10_canceled_flag_pins_cancelled_stage :
    (∀ (db db' : DB) (self a' : CandidateApplication),
      self.canceled = true →
      CandidateApplication.save db self = .ok (db', a') →
      ∃ cst : Stage, a'.stage_id = some cst.id ∧ cst ∈ db'.stages ∧
        cst.stage_type = "cancelled" ∧ cst.recruitment_id = self.recruitment_id) ∧
    (∀ (db db' : DB) (candId stageId : Nat) (capp : CandidateApplication)
        (saved : Bool) (adv : Option Int),
      db.findApp candId = some capp → capp.canceled = true →
      change_candidate_stage_item db candId stageId = .ok (db', saved, adv) →
      saved = true →
      ∃ (a' : CandidateApplication) (cst : Stage),
        db'.findApp candId = some a' ∧ a'.stage_id = some cst.id ∧
        cst ∈ db'.stages ∧ cst.stage_type = "cancelled" ∧
        cst.recruitment_id = capp.recruitment_id) := by
  constructor
  · intro db db' self a' hc h
    obtain ⟨cst, h1, h2, h3, h4, -, -⟩ := save_canceled_spec hc h
    exact ⟨cst, h1, h4, h2, h3⟩
  · intro db db' candId stageId capp saved adv happ hcanc h hsaved
    unfold change_candidate_stage_item at h
    rw [happ] at h
    simp only at h
    cases hfs : db.stages.find?
        (fun st => st.recruitment_id == capp.recruitment_id && st.id == stageId) with
    | none =>
      rw [hfs] at h
      simp only [Except.ok.injEq, Prod.mk.injEq] at h
      rw [← h.2.1] at hsaved
      simp at hsaved
    | some stage =>
      rw [hfs] at h
      simp only at h
      cases hsave : CandidateApplication.save db { capp with stage_id := some stage.id } with
      | error e => rw [hsave] at h; simp at h
      | ok p =>
        obtain ⟨db1, a5⟩ := p
        rw [hsave] at h
        simp only at h
        have hc' : ({ capp with stage_id := some stage.id } :
            CandidateApplication).canceled = true := hcanc
        obtain ⟨cst, g1, g2, g3, g4, -, -⟩ := save_canceled_spec hc' hsave
        have hfind : db1.findApp candId = some a5 := by
          have hcappid : capp.id = candId := by
            have := List.find?_some happ
            simpa using this
          have := save_findApp_self hsave
          simpa [hcappid] using this
        have hdb1 : db' = db1 := by
          split at h
          · cases hfr : db1.findRecruitment stage.recruitment_id with
            | none => rw [hfr] at h; simp at h
            | some rec2 =>
              rw [hfr] at h
              simp only at h
              cases hvf : is_vacancy_filled db1 stage.recruitment_id with
              | error e => rw [hvf] at h; simp at h
              | ok ob =>
                rw [hvf] at h
                cases ob with
                | none =>
                  simp only [Except.ok.injEq, Prod.mk.injEq] at h
                  exact h.1.symm
                | some b =>
                  cases b with
                  | true =>
                    simp only [Except.ok.injEq, Prod.mk.injEq] at h
                    exact h.1.symm
                  | false =>
                    simp only [Except.ok.injEq, Prod.mk.injEq] at h
                    exact h.1.symm
          · simp only [Except.ok.injEq, Prod.mk.injEq] at h
            exact h.1.symm
        subst hdb1
        exact ⟨a5, cst, hfind, g1, g4, g2, g3⟩

/-- An already-canceled application sitting in the cancelled stage. -/
def appAcanceled : CandidateApplication :=
  { appA with canceled := true, stage_id := some 12 }

def dbC10 : DB := { dbA with applications := [appAcanceled] }

/-- C10 witness: the bulk stage change to the Sourced stage reports a save but
leaves the canceled application in the cancelled stage (the database is
unchanged). -/
theorem C10_witness :
    dbC10.findApp 100 = some appAcanceled ∧ appAcanceled.canceled = true ∧
    change_candidate_stage_item dbC10 100 10 = .ok (dbC10, true, none) ∧
    (∃ (a' : CandidateApplication) (cst : Stage),
      dbC10.findApp 100 = some a' ∧ a'.stage_id = some cst.id ∧
      cst ∈ dbC10.stages ∧ cst.stage_type = "cancelled" ∧
      cst.recruitment_id = appAcanceled.recruitment_id) :=
  ⟨by rfl, by rfl, by rfl,
    C10_canceled_flag_pins_cancelled_stage.2 dbC10 dbC10 100 10 appAcanceled true
      none (by rfl) (by rfl) (by rfl) (by rfl)⟩

/-! ## C6 — vacancy advisory after a move into a selected stage -/

/-- C6 (code bug): moving application 100 into the Selected stage through the
reorder endpoint persists the move (the carried database shows the
application in stage 11 with `hired = true`), but the request then fails with
`AttributeError` instead of returning the non-fatal "vacancy filled"
advisory: `Recruitment.is_vacancy_filled` (models.py:472) dereferences
`selected_stage.candidate_set`, a relation that no longer exists after the
`Candidate`/`CandidateApplication` split (see the doc comment on
`is_vacancy_filled`). -/
theorem C6_vacancy_check_raises_attribute_error :
    update_candidate_stage_and_sequence dbA [100] 11 =
      .error (.attributeError "Stage object has no attribute candidate_set",
        dbAafterSel) ∧
    (dbAafterSel.findApp 100).map (fun a => (a.stage_id, a.hired)) =
      some (some 11, true) ∧
    is_vacancy_filled dbAafterSel 1 =
      .error (.attributeError "Stage object has no attribute candidate_set") := by
  exact ⟨by rfl, by rfl, by rfl⟩

/-! ## C9 — conversion to employee -/

/-- C9 (confirmed), in five parts: (a) an already-linked application is not
converted again and nothing changes; (b) an existing user account with the
candidate's email blocks the conversion with no change; (c) a successful
conversion creates exactly one employee carrying the candidate's email, links
it, sets `converted` and forces `hired = canceled = false`; (d) `save`
rejects an application whose converted-employee link is already held by
another application; (e) every successful save of a converted application
ends with `hired = false` and `canceled = false`. -/
theorem C9_conversion_contract :
    (∀ (db : DB) (app_id e : Nat) (capp : CandidateApplication),
      db.findApp app_id = some capp → capp.converted_employee_id = some e →
      candidate_application_conversion db app_id = .ok (db, .alreadyConverted)) ∧
    (∀ (db : DB) (app_id : Nat) (capp : CandidateApplication),
      db.findApp app_id = some capp → capp.converted_employee_id = none →
      db.users.contains capp.email = true →
      candidate_application_conversion db app_id = .ok (db, .userExists)) ∧
    (∀ (db db' : DB) (app_id : Nat) (capp : CandidateApplication),
      db.findApp app_id = some capp →
      candidate_application_conversion db app_id = .ok (db', .success) →
      ∃ a', db'.findApp app_id = some a' ∧ a'.converted = true ∧
        a'.converted_employee_id = some db.nextEmployeeId ∧
        a'.hired = false ∧ a'.canceled = false ∧
        (∃ emp ∈ db'.employees, emp.id = db.nextEmployeeId ∧
          emp.username = capp.email)) ∧
    (∀ (db : DB) (self other : CandidateApplication) (e : Nat),
      self.converted_employee_id = some e → other ∈ db.applications →
      other.converted_employee_id = some e → other.id ≠ self.id →
      ∀ res, CandidateApplication.save db self ≠ .ok res) ∧
    (∀ (db db' : DB) (self a' : CandidateApplication),
      self.converted = true →
      CandidateApplication.save db self = .ok (db', a') →
      a'.hired = false ∧ a'.canceled = false ∧ a'.converted = true) := by
  have hconvflags : ∀ (db db' : DB) (self a' : CandidateApplication),
      self.converted = true →
      CandidateApplication.save db self = .ok (db', a') →
      a'.hired = false ∧ a'.canceled = false ∧ a'.converted = true := by
    intro db db' self a' hcv h
    obtain ⟨_, _, _, _, hconv, _, hfix, _⟩ := save_ok_shape h
    have hcv' : a'.converted = true := by rw [hconv]; exact hcv
    rw [applyConverted_of_converted hcv'] at hfix
    refine ⟨?_, ?_, hcv'⟩
    · rw [← hfix]
    · rw [← hfix]
  refine ⟨?_, ?_, ?_, ?_, hconvflags⟩
  · intro db app_id e capp happ hce
    unfold candidate_application_conversion
    rw [happ]
    simp only
    rw [if_pos (by rw [hce]; rfl)]
  · intro db app_id capp happ hce husr
    unfold candidate_application_conversion
    rw [happ]
    simp only
    rw [if_neg (by rw [hce]; simp), if_pos (by rw [husr])]
  · intro db db' app_id capp happ h
    unfold candidate_application_conversion at h
    rw [happ] at h
    simp only at h
    split at h
    · simp at h
    · split at h
      · simp at h
      · split at h
        · cases hsave : CandidateApplication.save
              { db with
                employees := db.employees ++
                  [{ id := db.nextEmployeeId, username := capp.email,
                     is_directly_converted := true }]
                nextEmployeeId := db.nextEmployeeId + 1 }
              { capp with
                converted_employee_id := some db.nextEmployeeId
                converted := true } with
          | error p =>
            obtain ⟨e, db2⟩ := p
            rw [hsave] at h
            simp at h
          | ok p =>
            obtain ⟨db2, a5⟩ := p
            rw [hsave] at h
            simp only [Except.ok.injEq, Prod.mk.injEq] at h
            obtain ⟨hdb2, -⟩ := h
            subst hdb2
            obtain ⟨hflags1, hflags2, hflags3⟩ :=
              hconvflags _ _ _ _ (by rfl) hsave
            obtain ⟨hid, _, _, _, _, hce, _, db1, hdb', happ1, _, hemp, _⟩ :=
              save_ok_shape hsave
            have hcappid : capp.id = app_id := by
              have := List.find?_some happ
              simpa using this
            refine ⟨a5, ?_, hflags3, ?_, hflags1, hflags2, ?_⟩
            · have := save_findApp_self hsave
              simpa [hcappid] using this
            · rw [hce]
            · refine ⟨{ id := db.nextEmployeeId, username := capp.email,
                        is_directly_converted := true }, ?_, rfl, rfl⟩
              rw [hdb', persistApp_employees, hemp]
              exact List.mem_append_right _ (List.mem_singleton.mpr rfl)
        · simp at h
  · intro db self other e hse hom hoe hoid res h
    cases hres : CandidateApplication.save db self with
    | error p => rw [hres] at h; exact absurd h (by simp)
    | ok p =>
      exfalso
      obtain ⟨db', a'⟩ := p
      unfold CandidateApplication.save at hres
      cases h1 : deriveHired db self with
      | error e1 => rw [h1] at hres; simp at hres
      | ok a1 =>
        rw [h1] at hres
        simp only at hres
        obtain ⟨e1id, _, _, _, _, _, _, _, e1ce⟩ := deriveHired_ok_fields h1
        cases h2 : db.findRecruitment a1.recruitment_id with
        | none => rw [h2] at hres; simp at hres
        | some rec =>
          rw [h2] at hres
          simp only at hres
          split at hres
          · simp at hres
          · split at hres
            · simp at hres
            · cases h3 : deriveCanceled db (defaultJobPosition rec a1) with
              | error e3 => rw [h3] at hres; simp at hres
              | ok a3 =>
                rw [h3] at hres
                simp only at hres
                obtain ⟨e3id, _, _, _, _, _, _, _, e3ce, _⟩ :=
                  deriveCanceled_ok_fields h3
                obtain ⟨e2id, _, _, _, _, _, _, _, e2ce⟩ :=
                  defaultJobPosition_fields rec a1
                cases h4 : redirectCancelled db a3 with
                | mk db1 a4 =>
                  rw [h4] at hres
                  simp only at hres
                  obtain ⟨e4id, _, _, _, _, _, _, _, e4ce, d4app, _⟩ :=
                    redirectCancelled_shape h4
                  have hdup : employeeLinkDuplicated db1 a4 = true := by
                    unfold employeeLinkDuplicated
                    rw [e4ce, e3ce, e2ce, e1ce, hse]
                    apply List.any_eq_true.mpr
                    refine ⟨other, ?_, ?_⟩
                    · rw [d4app]; exact hom
                    · have hne : other.id ≠ a4.id := by
                        rw [e4id, e3id, e2id, e1id]; exact hoid
                      simp [hoe, hne]
                  rw [if_pos hdup] at hres
                  simp at hres

/-- `dbA` after a successful conversion of application 100: employee 50 is
created with the candidate's email, linked, and the application flags are
updated. -/
def dbAafterConv : DB :=
  { dbA with
      employees := [{ id := 50, username := "a@b.c", is_directly_converted := true }],
      nextEmployeeId := 51,
      applications :=
        [{ appA with converted_employee_id := some 50, converted := true }] }

/-- C9 witness: the concrete conversion succeeds and the success clause of the
contract applies to it. -/
theorem C9_witness :
    dbA.findApp 100 = some appA ∧
    candidate_application_conversion dbA 100 = .ok (dbAafterConv, .success) ∧
    (∃ a', dbAafterConv.findApp 100 = some a' ∧ a'.converted = true ∧
      a'.converted_employee_id = some dbA.nextEmployeeId ∧
      a'.hired = false ∧ a'.canceled = false ∧
      (∃ emp ∈ dbAafterConv.employees, emp.id = dbA.nextEmployeeId ∧
        emp.username = appA.email)) :=
  ⟨by rfl, by rfl,
    C9_conversion_contract.2.2.1 dbA dbAafterConv 100 appA (by rfl) (by rfl)⟩

/-! ## C4 — idempotence and content of `create_default_stages` -/

theorem applyDefaults_id (rec : Recruitment) (ty : String) (st : Stage) :
    (applyDefaults rec ty st).id = st.id := by
  unfold applyDefaults
  split <;> split <;> simp_all <;> split <;> simp_all <;> split <;> simp_all

theorem applyDefaults_recruitment (rec : Recruitment) (ty : String) (st : Stage) :
    (applyDefaults rec ty st).recruitment_id = st.recruitment_id := by
  unfold applyDefaults
  split <;> split <;> simp_all <;> split <;> simp_all <;> split <;> simp_all

theorem applyDefaults_stage (rec : Recruitment) (ty : String) (st : Stage) :
    (applyDefaults rec ty st).stage = st.stage := by
  unfold applyDefaults
  split <;> split <;> simp_all <;> split <;> simp_all <;> split <;> simp_all

theorem applyDefaults_stage_type (rec : Recruitment) (ty : String) (st : Stage) :
    (applyDefaults rec ty st).stage_type = st.stage_type := by
  unfold applyDefaults
  split <;> split <;> simp_all <;> split <;> simp_all <;> split <;> simp_all

theorem applyDefaults_sequence (rec : Recruitment) (ty : String) (st : Stage) :
    (applyDefaults rec ty st).sequence = st.sequence := by
  unfold applyDefaults
  split <;> split <;> simp_all <;> split <;> simp_all <;> split <;> simp_all

theorem applyDefaults_idem (rec : Recruitment) (ty : String) (st : Stage) :
    applyDefaults rec ty (applyDefaults rec ty st) = applyDefaults rec ty st := by
  unfold applyDefaults
  by_cases hm : (!rec.default_stage_manager.isEmpty) = true <;>
    by_cases h1 : (ty == "l1_interview" && !rec.l1_interviewer.isEmpty) = true <;>
    by_cases h2 : (ty == "l2_interview" && !rec.l2_interviewer.isEmpty) = true <;>
    by_cases h3 : (ty == "l3_interview" && !rec.l3_interviewer.isEmpty) = true <;>
    simp [hm, h1, h2, h3]

/-- Well-formedness of the stage table alone. -/
def StagesWF (db : DB) : Prop :=
  (db.stages.map Stage.id).Nodup ∧ ∀ st ∈ db.stages, st.id < db.nextStageId

instance (db : DB) : Decidable (StagesWF db) := by
  unfold StagesWF; infer_instance

/-- The (recruitment, label) row exists and is a fixed point of the default
assignment — the state one loop iteration of `create_default_stages`
establishes. -/
def EnsuredStage (rec : Recruitment) (db : DB) (sd : String × String × Int) :
    Prop :=
  ∃ st, db.stages.find?
      (fun x => x.recruitment_id == rec.id && x.stage == sd.1) = some st ∧
    applyDefaults rec sd.2.1 st = st

theorem freshStage_id (db : DB) (recId : Nat) (sd : String × String × Int) :
    (freshStage db recId sd).id = db.nextStageId := rfl

theorem ensure_stages_found {rec : Recruitment} {db : DB}
    {sd : String × String × Int} {st : Stage}
    (hf : db.stages.find?
      (fun x => x.recruitment_id == rec.id && x.stage == sd.1) = some st) :
    (ensureDefaultStage rec db sd).stages =
      db.stages.map (fun x =>
        if x.id == st.id then applyDefaults rec sd.2.1 st else x) ∧
    (ensureDefaultStage rec db sd).nextStageId = db.nextStageId := by
  unfold ensureDefaultStage
  rw [hf]
  simp only [persistStage]
  refine ⟨?_, trivial⟩
  have : ∀ x ∈ db.stages, (if x.id == (applyDefaults rec sd.2.1 st).id
      then applyDefaults rec sd.2.1 st else x) =
      (if x.id == st.id then applyDefaults rec sd.2.1 st else x) := by
    intro x _
    rw [applyDefaults_id]
  exact List.map_congr_left this

theorem ensure_stages_created {rec : Recruitment} {db : DB}
    {sd : String × String × Int}
    (hf : db.stages.find?
      (fun x => x.recruitment_id == rec.id && x.stage == sd.1) = none)
    (hwf : StagesWF db) :
    (ensureDefaultStage rec db sd).stages =
      db.stages ++ [applyDefaults rec sd.2.1 (freshStage db rec.id sd)] ∧
    (ensureDefaultStage rec db sd).nextStageId = db.nextStageId + 1 := by
  unfold ensureDefaultStage
  rw [hf]
  simp only [persistStage]
  refine ⟨?_, trivial⟩
  rw [List.map_append]
  have hpre : db.stages.map (fun x =>
      if x.id == (applyDefaults rec sd.2.1 (freshStage db rec.id sd)).id
      then applyDefaults rec sd.2.1 (freshStage db rec.id sd) else x) = db.stages := by
    have : ∀ x ∈ db.stages, (if x.id ==
        (applyDefaults rec sd.2.1 (freshStage db rec.id sd)).id
        then applyDefaults rec sd.2.1 (freshStage db rec.id sd) else x) = x := by
      intro x hx
      rw [applyDefaults_id, freshStage_id]
      have hb := hwf.2 x hx
      have : x.id ≠ db.nextStageId := by omega
      simp [this]
    calc db.stages.map _ = db.stages.map (fun x => x) := List.map_congr_left this
      _ = db.stages := List.map_id' db.stages
  rw [hpre]
  have hcond : ((freshStage db rec.id sd).id ==
      (applyDefaults rec sd.2.1 (freshStage db rec.id sd)).id) = true := by
    rw [applyDefaults_id]
    simp
  rw [List.map_cons, List.map_nil, hcond]
  simp

/-- A loop iteration preserves the stage-table well-formedness. -/
theorem ensure_wf {rec : Recruitment} {db : DB} {sd : String × String × Int}
    (hwf : StagesWF db) : StagesWF (ensureDefaultStage rec db sd) := by
  cases hf : db.stages.find?
      (fun x => x.recruitment_id == rec.id && x.stage == sd.1) with
  | some st =>
    obtain ⟨hs, hn⟩ := ensure_stages_found hf
    constructor
    · rw [hs]
      have hcomp : ∀ x ∈ db.stages, (Stage.id ∘ fun x =>
          if x.id == st.id then applyDefaults rec sd.2.1 st else x) x =
            Stage.id x := by
        intro x _
        by_cases hxs : x.id = st.id
        · simp [Function.comp, hxs, applyDefaults_id]
        · simp [Function.comp, hxs]
      rw [List.map_map, List.map_congr_left hcomp]
      exact hwf.1
    · intro x hx
      rw [hs] at hx
      rw [hn]
      rcases List.mem_map.mp hx with ⟨y, hy, hyx⟩
      have hyb := hwf.2 y hy
      by_cases hys : y.id = st.id
      · have he : (if y.id == st.id then applyDefaults rec sd.2.1 st else y) =
            applyDefaults rec sd.2.1 st := by simp [hys]
        rw [← hyx, he, applyDefaults_id]
        exact hwf.2 st (List.mem_of_find?_eq_some hf)
      · have he : (if y.id == st.id then applyDefaults rec sd.2.1 st else y) = y := by
          simp [hys]
        rw [← hyx, he]
        exact hyb
  | none =>
    obtain ⟨hs, hn⟩ := ensure_stages_created hf hwf
    constructor
    · rw [hs, List.map_append, List.map_cons, List.map_nil, List.nodup_append]
      refine ⟨hwf.1, List.nodup_singleton _, ?_⟩
      intro x hx
      simp only [List.mem_singleton]
      intro hxf
      rcases List.mem_map.mp hx with ⟨y, hy, hyx⟩
      have := hwf.2 y hy
      rw [applyDefaults_id, freshStage_id] at hxf
      omega
    · intro x hx
      rw [hs] at hx
      rw [hn]
      rcases List.mem_append.mp hx with hm | hm
      · have := hwf.2 x hm; omega
      · rcases List.mem_singleton.mp hm with rfl
        rw [applyDefaults_id, freshStage_id]
        omega

/-- A loop iteration whose row already carries the default assignment is the
identity on the database. -/
theorem ensure_of_ensured {rec : Recruitment} {db : DB} {sd : String × String × Int}
    (hwf : StagesWF db) (hd : EnsuredStage rec db sd) :
    ensureDefaultStage rec db sd = db := by
  obtain ⟨st, hfind, hfix⟩ := hd
  unfold ensureDefaultStage
  rw [hfind]
  simp only
  rw [hfix]
  unfold persistStage
  rw [map_replace_self_of_nodup Stage.id hwf.1 (List.mem_of_find?_eq_some hfind)]

/-- After a loop iteration, its (recruitment, label) row exists and is a fixed
point of the default assignment. -/
theorem ensure_establishes {rec : Recruitment} {db : DB} {sd : String × String × Int}
    (hwf : StagesWF db) : EnsuredStage rec (ensureDefaultStage rec db sd) sd := by
  cases hf : db.stages.find?
      (fun x => x.recruitment_id == rec.id && x.stage == sd.1) with
  | some st =>
    obtain ⟨hs, -⟩ := ensure_stages_found hf
    refine ⟨applyDefaults rec sd.2.1 st, ?_, applyDefaults_idem rec sd.2.1 st⟩
    rw [hs]
    have hpt : ∀ x ∈ db.stages,
        (fun y => y.recruitment_id == rec.id && y.stage == sd.1)
          ((fun x => if x.id == st.id then applyDefaults rec sd.2.1 st else x) x) =
        (fun y => y.recruitment_id == rec.id && y.stage == sd.1) x := by
      intro x hx
      by_cases hxs : x.id = st.id
      · have hxst : x = st :=
          List.inj_on_of_nodup_map hwf.1 hx (List.mem_of_find?_eq_some hf) hxs
        subst hxst
        simp [applyDefaults_recruitment, applyDefaults_stage]
      · simp [hxs]
    rw [find?_map_of_pred_preserved _ _ hpt, hf]
    simp only [Option.map_some']
    have he : (if st.id == st.id then applyDefaults rec sd.2.1 st else st) =
        applyDefaults rec sd.2.1 st := by simp
    rw [he]
  | none =>
    obtain ⟨hs, -⟩ := ensure_stages_created hf hwf
    refine ⟨applyDefaults rec sd.2.1 (freshStage db rec.id sd), ?_,
      applyDefaults_idem rec sd.2.1 (freshStage db rec.id sd)⟩
    rw [hs, find?_append_none _ _ _ hf]
    have hp : ((applyDefaults rec sd.2.1 (freshStage db rec.id sd)).recruitment_id ==
        rec.id &&
        (applyDefaults rec sd.2.1 (freshStage db rec.id sd)).stage == sd.1) = true := by
      rw [applyDefaults_recruitment, applyDefaults_stage]
      simp [freshStage]
    simp [List.find?, hp]

/-- A loop iteration for a different label keeps an ensured row ensured. -/
theorem ensure_preserves_other {rec : Recruitment} {db : DB}
    {sd sd' : String × String × Int}
    (hwf : StagesWF db) (hne : sd'.1 ≠ sd.1) (hd : EnsuredStage rec db sd') :
    EnsuredStage rec (ensureDefaultStage rec db sd) sd' := by
  obtain ⟨st', hfind', hfix'⟩ := hd
  cases hf : db.stages.find?
      (fun x => x.recruitment_id == rec.id && x.stage == sd.1) with
  | some st =>
    obtain ⟨hs, -⟩ := ensure_stages_found hf
    refine ⟨st', ?_, hfix'⟩
    rw [hs]
    have hpt : ∀ x ∈ db.stages,
        (fun y => y.recruitment_id == rec.id && y.stage == sd'.1)
          ((fun x => if x.id == st.id then applyDefaults rec sd.2.1 st else x) x) =
        (fun y => y.recruitment_id == rec.id && y.stage == sd'.1) x := by
      intro x hx
      by_cases hxs : x.id = st.id
      · have hxst : x = st :=
          List.inj_on_of_nodup_map hwf.1 hx (List.mem_of_find?_eq_some hf) hxs
        subst hxst
        simp [applyDefaults_recruitment, applyDefaults_stage]
      · simp [hxs]
    rw [find?_map_of_pred_preserved _ _ hpt, hfind']
    simp only [Option.map_some']
    have hlab' : st'.stage = sd'.1 := by
      have := List.find?_some hfind'
      simp only [Bool.and_eq_true, beq_iff_eq] at this
      exact this.2
    have hlab : st.stage = sd.1 := by
      have := List.find?_some hf
      simp only [Bool.and_eq_true, beq_iff_eq] at this
      exact this.2
    have hne' : st'.id ≠ st.id := by
      intro he
      have heq : st' = st :=
        List.inj_on_of_nodup_map hwf.1 (List.mem_of_find?_eq_some hfind')
          (List.mem_of_find?_eq_some hf) he
      exact hne (by rw [← hlab', heq, hlab])
    simp [hne']
  | none =>
    obtain ⟨hs, -⟩ := ensure_stages_created hf hwf
    refine ⟨st', ?_, hfix'⟩
    rw [hs]
    exact find?_append_some _ _ _ _ hfind'

theorem fold_ensure_wf (rec : Recruitment) (sds : List (String × String × Int)) :
    ∀ db, StagesWF db → StagesWF (sds.foldl (ensureDefaultStage rec) db) := by
  induction sds with
  | nil => intro db h; exact h
  | cons x xs ih =>
    intro db h
    rw [List.foldl_cons]
    exact ih _ (ensure_wf h)

theorem fold_ensure_preserves (rec : Recruitment) (sd : String × String × Int)
    (sds : List (String × String × Int)) :
    ∀ db, StagesWF db → (∀ b ∈ sds, sd.1 ≠ b.1) → EnsuredStage rec db sd →
      EnsuredStage rec (sds.foldl (ensureDefaultStage rec) db) sd := by
  induction sds with
  | nil => intro db _ _ hd; exact hd
  | cons x xs ih =>
    intro db hwf hlab hd
    rw [List.foldl_cons]
    exact ih _ (ensure_wf hwf) (fun b hb => hlab b (List.mem_cons_of_mem x hb))
      (ensure_preserves_other hwf (hlab x (List.mem_cons_self x xs)) hd)

theorem fold_ensure_establishes (rec : Recruitment) (sd : String × String × Int)
    (sds : List (String × String × Int)) :
    ∀ db, StagesWF db → sd ∈ sds → List.Pairwise (fun a b => a.1 ≠ b.1) sds →
      EnsuredStage rec (sds.foldl (ensureDefaultStage rec) db) sd := by
  induction sds with
  | nil => intro db _ h _; simp at h
  | cons x xs ih =>
    intro db hwf hmem hpw
    rw [List.foldl_cons]
    rw [List.pairwise_cons] at hpw
    rcases List.mem_cons.mp hmem with rfl | hmem'
    · exact fold_ensure_preserves rec sd xs _ (ensure_wf hwf) hpw.1
        (ensure_establishes hwf)
    · exact ih _ (ensure_wf hwf) hmem' hpw.2

theorem fold_ensure_id (rec : Recruitment) (sds : List (String × String × Int)) :
    ∀ db, StagesWF db → (∀ sd ∈ sds, EnsuredStage rec db sd) →
      sds.foldl (ensureDefaultStage rec) db = db := by
  induction sds with
  | nil => intro db _ _; rfl
  | cons x xs ih =>
    intro db hwf hall
    rw [List.foldl_cons, ensure_of_ensured hwf (hall x (List.mem_cons_self x xs))]
    exact ih db hwf (fun sd hsd => hall sd (List.mem_cons_of_mem x hsd))

/-- The (recruitment, label, type, sequence) projection of a stage row — the
data `create_default_stages` is specified over. -/
def projLTS (st : Stage) : Nat × String × String × Int :=
  (st.recruitment_id, st.stage, st.stage_type, st.sequence)

/-- Folding the loop over stage data none of whose labels exist yet appends
exactly one row per datum, carrying the datum's label, type and sequence. -/
theorem fresh_fold (rec : Recruitment) (sds : List (String × String × Int)) :
    ∀ db, StagesWF db →
      (∀ sd ∈ sds, ∀ st ∈ db.stages,
        ¬(st.recruitment_id = rec.id ∧ st.stage = sd.1)) →
      List.Pairwise (fun a b => a.1 ≠ b.1) sds →
      (sds.foldl (ensureDefaultStage rec) db).stages.map projLTS =
        db.stages.map projLTS ++
          sds.map (fun sd => (rec.id, sd.1, sd.2.1, sd.2.2)) := by
  induction sds with
  | nil => intro db _ _ _; simp
  | cons x xs ih =>
    intro db hwf hdis hpw
    rw [List.foldl_cons]
    have hf : db.stages.find?
        (fun st => st.recruitment_id == rec.id && st.stage == x.1) = none := by
      rw [List.find?_eq_none]
      intro st hst hpred
      simp only [Bool.and_eq_true, beq_iff_eq] at hpred
      exact hdis x (List.mem_cons_self x xs) st hst ⟨hpred.1, hpred.2⟩
    obtain ⟨hs, -⟩ := ensure_stages_created hf hwf
    rw [List.pairwise_cons] at hpw
    have hdis' : ∀ sd ∈ xs, ∀ st ∈ (ensureDefaultStage rec db x).stages,
        ¬(st.recruitment_id = rec.id ∧ st.stage = sd.1) := by
      intro sd hsd st hst
      rw [hs] at hst
      rcases List.mem_append.mp hst with hm | hm
      · exact hdis sd (List.mem_cons_of_mem x hsd) st hm
      · rcases List.mem_singleton.mp hm with rfl
        rintro ⟨-, hlab⟩
        rw [applyDefaults_stage] at hlab
        exact hpw.1 sd hsd (by rw [← hlab]; rfl)
    have hstep := ih (ensureDefaultStage rec db x) (ensure_wf hwf) hdis' hpw.2
    rw [hstep, hs, List.map_append]
    have hproj : projLTS (applyDefaults rec x.2.1 (freshStage db rec.id x)) =
        (rec.id, x.1, x.2.1, x.2.2) := by
      unfold projLTS
      rw [applyDefaults_recruitment, applyDefaults_stage,
        applyDefaults_stage_type, applyDefaults_sequence]
      rfl
    simp [hproj]

/-- C4, counterexample to the claim as stated: on a fresh recruitment,
`create_default_stages` creates no cancelled-type stage at all — the nine
canonical stages end with On Hold at sequence 9, so "a cancelled-type stage
last" is false (the cancelled stage is created lazily elsewhere,
models.py:1547-1558). -/
theorem C4_counterexample :
    ¬ ∃ st ∈ (create_default_stages recA
        { recruitments := [recA], stages := [], applications := [],
          employees := [], users := [], nextStageId := 0,
          nextEmployeeId := 0 }).stages,
      st.stage_type = "cancelled" := by
  decide

/-- C4 (amended): `create_default_stages` is idempotent on any database whose
stage table is well formed — the second run is the identity, so labels and
sequences coincide with a single run and no stage is duplicated; and the set
it ensures on a fresh recruitment is exactly the nine canonical stages with
sourced at sequence 1 and **On Hold** (not a cancelled-type stage) last at
sequence 9: no cancelled-type stage is created. -/
theorem C4_create_default_stages_idempotent :
    (∀ (rec : Recruitment) (db : DB), StagesWF db →
      create_default_stages rec (create_default_stages rec db) =
        create_default_stages rec db) ∧
    (∀ (rec : Recruitment) (recs : List Recruitment)
        (apps : List CandidateApplication) (emps : List EmployeeRec)
        (usrs : List String) (n m : Nat),
      (create_default_stages rec
          ⟨recs, [], apps, emps, usrs, n, m⟩).stages.map projLTS =
        [(rec.id, "Sourced", "sourced", 1), (rec.id, "Shortlisted", "shortlisted", 2),
         (rec.id, "L1 Interview", "l1_interview", 3),
         (rec.id, "L2 Interview", "l2_interview", 4),
         (rec.id, "L3 Interview", "l3_interview", 5), (rec.id, "Test", "test", 6),
         (rec.id, "Selected", "selected", 7), (rec.id, "Rejected", "rejected", 8),
         (rec.id, "On Hold", "on-hold", 9)] ∧
      ∀ st ∈ (create_default_stages rec
          ⟨recs, [], apps, emps, usrs, n, m⟩).stages,
        st.stage_type ≠ "cancelled") := by
  constructor
  · intro rec db hwf
    unfold create_default_stages
    apply fold_ensure_id
    · exact fold_ensure_wf rec defaultStagesData db hwf
    · intro sd hsd
      exact fold_ensure_establishes rec sd defaultStagesData db hwf hsd (by decide)
  · intro rec recs apps emps usrs n m
    have hwf : StagesWF (⟨recs, [], apps, emps, usrs, n, m⟩ : DB) := by
      constructor
      · simp
      · intro st hst
        simp at hst
    have hproj := fresh_fold rec defaultStagesData
      ⟨recs, [], apps, emps, usrs, n, m⟩ hwf
      (by intro sd _ st hst; simp at hst) (by decide)
    rw [show (⟨recs, [], apps, emps, usrs, n, m⟩ : DB).stages = [] from rfl] at hproj
    simp only [List.map_nil, List.nil_append] at hproj
    have hlist : defaultStagesData.map
        (fun sd => (rec.id, sd.1, sd.2.1, sd.2.2)) =
        [(rec.id, "Sourced", "sourced", 1), (rec.id, "Shortlisted", "shortlisted", 2),
         (rec.id, "L1 Interview", "l1_interview", 3),
         (rec.id, "L2 Interview", "l2_interview", 4),
         (rec.id, "L3 Interview", "l3_interview", 5), (rec.id, "Test", "test", 6),
         (rec.id, "Selected", "selected", 7), (rec.id, "Rejected", "rejected", 8),
         (rec.id, "On Hold", "on-hold", 9)] := by
      unfold defaultStagesData
      rfl
    refine ⟨by rw [show create_default_stages rec ⟨recs, [], apps, emps, usrs, n, m⟩ =
        defaultStagesData.foldl (ensureDefaultStage rec)
          ⟨recs, [], apps, emps, usrs, n, m⟩ from rfl, hproj, hlist], ?_⟩
    intro st hst hcan
    have hm : projLTS st ∈ (create_default_stages rec
        ⟨recs, [], apps, emps, usrs, n, m⟩).stages.map projLTS :=
      List.mem_map_of_mem projLTS hst
    rw [show create_default_stages rec ⟨recs, [], apps, emps, usrs, n, m⟩ =
        defaultStagesData.foldl (ensureDefaultStage rec)
          ⟨recs, [], apps, emps, usrs, n, m⟩ from rfl, hproj, hlist] at hm
    have hty : (projLTS st).2.2.1 = "cancelled" := by
      unfold projLTS
      simpa using hcan
    simp only [List.mem_cons] at hm
    rcases hm with h | h | h | h | h | h | h | h | h | h <;>
      first
      | (rw [h] at hty; simp at hty)
      | simp at h

/-- C4 witness: idempotence applied to the concrete database `dbA`. -/
theorem C4_witness :
    StagesWF dbA ∧
    create_default_stages recA (create_default_stages recA dbA) =
      create_default_stages recA dbA :=
  ⟨by decide, C4_create_default_stages_idempotent.1 recA dbA (by decide)⟩

/-! ## C5 — reorder: sequence assignment and stage placement -/

/-- A successful save keeps every stage lookup that succeeded before. -/
theorem save_findStage_mono {db db' : DB} {self a' : CandidateApplication}
    {i : Nat} {s : Stage}
    (h : CandidateApplication.save db self = .ok (db', a'))
    (hs : db.findStage i = some s) : db'.findStage i = some s := by
  obtain ⟨_, _, _, _, _, _, _, db1, hdb', _, _, _, _, _, hst⟩ := save_ok_shape h
  have hstages : db'.stages = db1.stages := by rw [hdb', persistApp_stages]
  unfold DB.findStage at hs ⊢
  rw [hstages]
  rcases hst with ⟨hs1, -⟩ | ⟨ns, -, hs1, -⟩
  · rw [hs1]; exact hs
  · rw [hs1]; exact find?_append_some _ _ _ _ hs

/-- A save of a non-canceled application into a resolvable stage whose type is
not "cancelled" stores exactly that stage. -/
theorem save_stage_preserved {db db' : DB} {self a' : CandidateApplication}
    {sid : Nat} {st : Stage}
    (hsid : self.stage_id = some sid) (hst : db.findStage sid = some st)
    (hcanc : self.canceled = false)
    (hty : (st.stage_type == "cancelled") = false)
    (h : CandidateApplication.save db self = .ok (db', a')) :
    a'.stage_id = some sid := by
  unfold CandidateApplication.save at h
  rw [deriveHired_some hsid hst] at h
  simp only at h
  cases h2 : db.findRecruitment self.recruitment_id with
  | none => rw [h2] at h; simp at h
  | some rec =>
    rw [h2] at h
    simp only at h
    split at h
    · simp at h
    · split at h
      · simp at h
      · rw [deriveCanceled_some
            (show (defaultJobPosition rec
              { self with hired := st.stage_type == "selected" }).stage_id =
                some sid from
              ((defaultJobPosition_fields rec _).2.2.2.1).trans hsid)
            hst] at h
        rw [hty] at h
        simp only [if_neg (by decide : ¬ (false = true))] at h
        rw [redirectCancelled_of_not_canceled
            (show (defaultJobPosition rec
              { self with hired := st.stage_type == "selected" }).canceled =
                false from
              ((defaultJobPosition_fields rec _).2.2.2.2.2.2.1).trans hcanc)] at h
        simp only at h
        split at h
        · simp at h
        · simp only [Except.ok.injEq, Prod.mk.injEq] at h
          obtain ⟨-, ha'⟩ := h
          rw [← ha', (applyConverted_fields _).2.2.2.1,
            (defaultJobPosition_fields rec _).2.2.2.1]
          exact hsid

/-- The reorder loop: well-formedness is preserved, applications outside the
id list are untouched, and every listed application that exists ends with
sequence `startIndex + position`; when it was not canceled and the target
stage's type is not "cancelled", its stage is the target stage. -/
theorem reorderLoop_spec (stage : Option Stage) :
    ∀ (ids : List Nat) (idx : Nat) (db db' : DB),
      DBwf db → ids.Nodup →
      (∀ stg, stage = some stg → db.findStage stg.id = some stg) →
      reorderLoop stage ids idx db = .ok db' →
      DBwf db' ∧
      (∀ cid, cid ∉ ids → db'.findApp cid = db.findApp cid) ∧
      (∀ (i : Nat) (hi : i < ids.length) (a : CandidateApplication),
        db.findApp (ids.get ⟨i, hi⟩) = some a →
        ∃ a', db'.findApp (ids.get ⟨i, hi⟩) = some a' ∧
          a'.sequence = ((idx + i : Nat) : Int) ∧
          (a.canceled = false →
            ∀ stg, stage = some stg → (stg.stage_type == "cancelled") = false →
              a'.stage_id = some stg.id)) := by
  intro ids
  induction ids with
  | nil =>
    intro idx db db' hwf _ _ h
    unfold reorderLoop at h
    simp only [Except.ok.injEq] at h
    subst h
    refine ⟨hwf, fun cid _ => rfl, ?_⟩
    intro i hi
    simp at hi
  | cons cid rest ih =>
    intro idx db db' hwf hnd hstg h
    unfold reorderLoop at h
    rw [List.nodup_cons] at hnd
    cases happ : db.findApp cid with
    | none =>
      rw [happ] at h
      obtain ⟨hwf', hother, hlisted⟩ := ih (idx + 1) db db' hwf hnd.2 hstg h
      refine ⟨hwf', ?_, ?_⟩
      · intro c hc
        exact hother c (fun hm => hc (List.mem_cons_of_mem cid hm))
      · intro i hi a ha
        cases i with
        | zero =>
          rw [show (cid :: rest).get ⟨0, hi⟩ = cid from rfl] at ha
          rw [happ] at ha
          simp at ha
        | succ j =>
          have hj : j < rest.length := by
            simpa using Nat.lt_of_succ_lt_succ hi
          have hget : (cid :: rest).get ⟨j + 1, hi⟩ = rest.get ⟨j, hj⟩ := rfl
          rw [hget] at ha ⊢
          obtain ⟨a', h1, h2, h3⟩ := hlisted j hj a ha
          refine ⟨a', h1, ?_, h3⟩
          rw [h2]
          congr 1
          omega
    | some capp =>
      rw [happ] at h
      simp only at h
      cases hsave : CandidateApplication.save db
          { capp with sequence := (idx : Int), stage_id := stage.map Stage.id } with
      | error e => rw [hsave] at h; simp at h
      | ok p =>
        obtain ⟨db2, a5⟩ := p
        rw [hsave] at h
        simp only at h
        have hcappid : capp.id = cid := by
          have := List.find?_some happ
          simpa using this
        have hwf2 : DBwf db2 := save_wf hsave hwf
        have hstg2 : ∀ stg, stage = some stg → db2.findStage stg.id = some stg :=
          fun stg hs => save_findStage_mono hsave (hstg stg hs)
        obtain ⟨hwf', hother, hlisted⟩ := ih (idx + 1) db2 db' hwf2 hnd.2 hstg2 h
        have hskip : ∀ c, c ≠ cid → db2.findApp c = db.findApp c := by
          intro c hc
          apply save_findApp_other hsave
          simpa [hcappid] using hc
        refine ⟨hwf', ?_, ?_⟩
        · intro c hc
          rw [hother c (fun hm => hc (List.mem_cons_of_mem cid hm))]
          exact hskip c (fun he => hc (he ▸ List.mem_cons_self cid rest))
        · intro i hi a ha
          cases i with
          | zero =>
            rw [show (cid :: rest).get ⟨0, hi⟩ = cid from rfl] at ha ⊢
            rw [happ] at ha
            obtain rfl := Option.some_inj.mp ha
            have hfind2 : db2.findApp cid = some a5 := by
              have := save_findApp_self hsave
              simpa [hcappid] using this
            have hfind' : db'.findApp cid = some a5 := by
              rw [hother cid hnd.1]
              exact hfind2
            refine ⟨a5, hfind', ?_, ?_⟩
            · have := (save_ok_shape hsave).2.2.1
              rw [this]
              simp
            · intro hcanc stg hs hty
              have hmap : ((stage.map Stage.id) :
                  Option Nat) = some stg.id := by rw [hs]; rfl
              exact @save_stage_preserved db db2
                { capp with sequence := (idx : Int), stage_id := stage.map Stage.id }
                a5 stg.id stg hmap (hstg stg hs) hcanc hty hsave
          | succ j =>
            have hj : j < rest.length := by
              simpa using Nat.lt_of_succ_lt_succ hi
            have hget : (cid :: rest).get ⟨j + 1, hi⟩ = rest.get ⟨j, hj⟩ := rfl
            rw [hget] at ha ⊢
            have hne : rest.get ⟨j, hj⟩ ≠ cid := by
              intro he
              exact hnd.1 (he ▸ List.get_mem rest j hj)
            have ha2 : db2.findApp (rest.get ⟨j, hj⟩) = some a := by
              rw [hskip _ hne]
              exact ha
            obtain ⟨a', h1, h2, h3⟩ := hlisted j hj a ha2
            refine ⟨a', h1, ?_, h3⟩
            rw [h2]
            congr 1
            omega

/-- C5, counterexample to the claim as stated: a canceled application listed
in a reorder to the Sourced stage (id 10) keeps the cancelled stage (id 12):
`save` redirects any canceled application (models.py:1547-1558), so "its
stage set to the target stage" fails for canceled applications. -/
theorem C5_counterexample :
    dbC10.findApp 100 = some appAcanceled ∧
    dbC10.findStage 10 = some stageSourcedA ∧
    update_candidate_stage_and_sequence dbC10 [100] 10 = .ok (dbC10, none) ∧
    (dbC10.findApp 100).map CandidateApplication.stage_id = some (some 12) ∧
    (10 : Nat) ≠ 12 := by
  exact ⟨rfl, rfl, by rfl, rfl, by decide⟩

/-- C5 (amended): after a successful reorder call with pairwise-distinct
application ids, every listed application that exists has sequence equal to
its 0-based index, and — provided its `canceled` flag was false and the
target stage's type is not "cancelled" — its stage set to the target stage
(a canceled application is instead redirected to its recruitment's
cancelled-type stage, see the counterexample); unknown ids are skipped and
applications not listed are untouched. -/
theorem C5_reorder_assigns_sequence_and_stage :
    ∀ (db db' : DB) (order_list : List Nat) (stageId : Nat) (st : Stage)
      (adv : Option Int),
      DBwf db → order_list.Nodup →
      db.stages.find? (fun x => x.id == stageId) = some st →
      update_candidate_stage_and_sequence db order_list stageId = .ok (db', adv) →
      (∀ cid, cid ∉ order_list → db'.findApp cid = db.findApp cid) ∧
      (∀ (i : Nat) (hi : i < order_list.length) (a : CandidateApplication),
        db.findApp (order_list.get ⟨i, hi⟩) = some a →
        ∃ a', db'.findApp (order_list.get ⟨i, hi⟩) = some a' ∧
          a'.sequence = (i : Int) ∧
          (a.canceled = false → (st.stage_type == "cancelled") = false →
            a'.stage_id = some stageId)) := by
  intro db db' order_list stageId st adv hwf hnd hfind h
  unfold update_candidate_stage_and_sequence at h
  rw [hfind] at h
  simp only at h
  have hstid : st.id = stageId := by
    have := List.find?_some hfind
    simpa using this
  have hstg : ∀ stg, (some st : Option Stage) = some stg →
      db.findStage stg.id = some stg := by
    intro stg hs
    obtain rfl := Option.some_inj.mp hs
    unfold DB.findStage
    rw [hstid]
    exact hfind
  cases hloop : reorderLoop (some st) order_list 0 db with
  | error e => rw [hloop] at h; simp at h
  | ok db1 =>
    rw [hloop] at h
    simp only at h
    obtain ⟨hwf1, hother, hlisted⟩ :=
      reorderLoop_spec (some st) order_list 0 db db1 hwf hnd hstg hloop
    have hdb1 : db' = db1 := by
      split at h
      · cases hfr : db1.findRecruitment st.recruitment_id with
        | none => rw [hfr] at h; simp at h
        | some rec2 =>
          rw [hfr] at h
          simp only at h
          cases hvf : is_vacancy_filled db1 st.recruitment_id with
          | error e => rw [hvf] at h; simp at h
          | ok ob =>
            rw [hvf] at h
            cases ob with
            | none =>
              simp only [Except.ok.injEq, Prod.mk.injEq] at h
              exact h.1.symm
            | some b =>
              cases b with
              | true =>
                simp only [Except.ok.injEq, Prod.mk.injEq] at h
                exact h.1.symm
              | false =>
                simp only [Except.ok.injEq, Prod.mk.injEq] at h
                exact h.1.symm
      · simp only [Except.ok.injEq, Prod.mk.injEq] at h
        exact h.1.symm
    subst hdb1
    refine ⟨hother, ?_⟩
    intro i hi a ha
    obtain ⟨a', h1, h2, h3⟩ := hlisted i hi a ha
    refine ⟨a', h1, ?_, ?_⟩
    · rw [h2]
      simp
    · intro hcanc hty
      rw [← hstid]
      exact h3 hcanc st rfl hty

/-- The Test stage, target of the witness reorder. -/
def stageTestA : Stage :=
  { id := 13, recruitment_id := 1, stage := "Test", stage_type := "test",
    sequence := 6, stage_managers := [], stage_interviewers := [] }

def dbC5w : DB :=
  { dbA with stages := [stageSourcedA, stageSelectedA, stageCancelledA, stageTestA] }

def dbC5wRes : DB :=
  { dbC5w with applications := [{ appA with stage_id := some 13 }] }

/-- C5 witness: a reorder listing one existing and one unknown id succeeds,
and the amended contract applies to it. -/
theorem C5_witness :
    DBwf dbC5w ∧ ([100, 999] : List Nat).Nodup ∧
    dbC5w.stages.find? (fun x => x.id == 13) = some stageTestA ∧
    update_candidate_stage_and_sequence dbC5w [100, 999] 13 =
      .ok (dbC5wRes, none) ∧
    ((∀ cid, cid ∉ ([100, 999] : List Nat) →
        dbC5wRes.findApp cid = dbC5w.findApp cid) ∧
      (∀ (i : Nat) (hi : i < ([100, 999] : List Nat).length)
          (a : CandidateApplication),
        dbC5w.findApp (([100, 999] : List Nat).get ⟨i, hi⟩) = some a →
        ∃ a', dbC5wRes.findApp (([100, 999] : List Nat).get ⟨i, hi⟩) = some a' ∧
          a'.sequence = (i : Int) ∧
          (a.canceled = false → (stageTestA.stage_type == "cancelled") = false →
            a'.stage_id = some 13))) :=
  ⟨by decide, by decide, by rfl, by rfl,
    C5_reorder_assigns_sequence_and_stage dbC5w dbC5wRes [100, 999] 13 stageTestA
      none (by decide) (by decide) (by rfl) (by rfl)⟩

end ATS
